import Mathlib

/-!
Verification development for the Cloud SDK test driver.

The Python sources (`driver.py`, `_config.py`, `_sdk_tar.py`, `constants.py`)
are shallowly embedded below.  Python dictionaries become association lists in
insertion order, the process environment and the file system become explicit
state records, and the external effects of `Init` (network download, tar
extraction, the installer subprocess) become oracle parameters recording the
outcome of each step.  Strings are Lean strings (Unicode code points, matching
Python `unicode` semantics).
-/

namespace CloudSdkTestDriver

/-! ### Association-list dictionaries (the Python `dict` model)

A Python dict is modelled as an association list in insertion order with
distinct keys.  `setS` rewrites the first binding in place (Python preserves
the position of an existing key) and appends otherwise; `lookupS` finds the
first binding. -/

def lookupS : List (String × String) → String → Option String
  | [], _ => none
  | kv :: rest, k => if kv.1 == k then some kv.2 else lookupS rest k

def setS : List (String × String) → String → String → List (String × String)
  | [], k, v => [(k, v)]
  | kv :: rest, k, v => if kv.1 == k then (k, v) :: rest else kv :: setS rest k v

def removeS (d : List (String × String)) (k : String) : List (String × String) :=
  d.filter (fun kv => kv.1 != k)

theorem lookupS_setS_self (d : List (String × String)) (k v : String) :
    lookupS (setS d k v) k = some v := by
  induction d with
  | nil => simp [setS, lookupS]
  | cons kv rest ih =>
    by_cases h : kv.1 = k
    · simp [setS, lookupS, h]
    · simp only [setS, lookupS, beq_iff_eq, h, if_false, if_neg h]
      exact ih

theorem lookupS_setS_ne (d : List (String × String)) (k v k' : String) (h : k' ≠ k) :
    lookupS (setS d k v) k' = lookupS d k' := by
  induction d with
  | nil => simp [setS, lookupS, Ne.symm h]
  | cons kv rest ih =>
    by_cases hk : kv.1 = k
    · subst hk
      simp [setS, lookupS, Ne.symm h]
    · simp only [setS, beq_iff_eq, hk, if_false, lookupS]
      by_cases hk' : kv.1 = k'
      · simp [hk']
      · simp only [beq_iff_eq, hk', if_false]
        exact ih

/-! ### POSIX path helpers (`os.path` on the driver's supported platform) -/

/-- Kernel-reducible variant of `String.startsWith`. -/
def strStartsWith (pre s : String) : Bool := decide (pre.data <+: s.data)

/-- Kernel-reducible variant of `String.endsWith`. -/
def strEndsWith (suf s : String) : Bool := decide (suf.data <:+ s.data)

/-- Model of `os.path.join(a, b)` for POSIX paths. -/
def pathJoin (a b : String) : String :=
  if strStartsWith "/" b then b
  else if a = "" then b
  else if strEndsWith "/" a then a ++ b
  else a ++ "/" ++ b

/-- Model of `os.path.dirname(p)` (posixpath): the part before the last slash,
with trailing slashes stripped unless the head is all slashes. -/
def dirnameP (p : String) : String :=
  let r := p.data.reverse.dropWhile (fun c => c != '/')
  if r.isEmpty || r.all (fun c => c == '/') then ⟨r.reverse⟩
  else ⟨(r.dropWhile (fun c => c == '/')).reverse⟩

/-- Model of `os.path.basename(p)` (posixpath): the part after the last slash. -/
def basenameP (p : String) : String :=
  ⟨(p.data.reverse.takeWhile (fun c => c != '/')).reverse⟩

/-- Model of `os.pathsep.join` / `str.join` for a list of path components. -/
def joinSep (sep : String) : List String → String
  | [] => ""
  | [x] => x
  | x :: y :: xs => x ++ sep ++ joinSep sep (y :: xs)

/-! ### URL splitting (`urlparse.urlsplit` from the Python 2 standard library,
as used by `_sdk_tar.py`) -/

def schemeChar (c : Char) : Bool :=
  c.isAlpha || c.isDigit || c == '+' || c == '-' || c == '.'

/-- Scheme detection of `urlparse.urlsplit`: the text before the first colon is
a scheme when it is non-empty, made of scheme characters, and the remainder is
not a bare port number; `http` is special-cased without the port check. -/
def urlsplitSchemeRest (url : String) : String × String :=
  match url.data.findIdx? (fun c => c == ':') with
  | none => ("", url)
  | some i =>
    if i = 0 then ("", url)
    else
      let head : List Char := url.data.take i
      let rest : List Char := url.data.drop (i + 1)
      if head = "http".data then ("http", ⟨rest⟩)
      else if head.all schemeChar then
        if rest.isEmpty || rest.any (fun c => !c.isDigit) then
          (⟨head.map Char.toLower⟩, ⟨rest⟩)
        else ("", url)
      else ("", url)

def urlScheme (url : String) : String := (urlsplitSchemeRest url).1

/-- Path component of `urlsplit`: after the scheme, an optional `//netloc` up
to the next `/`, `?` or `#` is removed, then the fragment and query are cut. -/
def urlsplitPath (url : String) : String :=
  let rest := (urlsplitSchemeRest url).2.data
  let rest := if rest.take 2 = ['/', '/'] then
      (rest.drop 2).dropWhile (fun c => c != '/' && c != '?' && c != '#')
    else rest
  let rest := rest.takeWhile (fun c => c != '#')
  ⟨rest.takeWhile (fun c => c != '?')⟩

/-- Model of `urlparse.urljoin('file://', p)`: the empty-authority base keeps
the `file` scheme and the path is made absolute (checked against the Python
runtime and against the repository's own unit-test expectations). -/
def urljoinFileBase (p : String) : String :=
  if strStartsWith "/" p then "file://" ++ p else "file:///" ++ p

/-! ### Constants (`constants.py`) -/

def DRIVER_LOCATION_ENV : String := "CLOUDSDK_DRIVER_LOCATION"
def DRIVER_KEEP_LOCATION_ENV : String := "CLOUDSDK_DRIVER_KEEP_LOCATION"
def SNAPSHOT_ENV : String := "CLOUDSDK_COMPONENT_MANAGER_SNAPSHOT_URL"
def PYTHON_ENV : String := "CLOUDSDK_PYTHON"
def CONFIG_ENV : String := "CLOUDSDK_CONFIG"
def PYTHON_PATH : String := "PYTHONPATH"

def COMPONENTS_FILE : String := "components-2.json"
def INSTALLER_FILE : String := "google-cloud-sdk.tar.gz"

def SDK_FOLDER : String := "google-cloud-sdk"
def REPO_FOLDER : String := "repo"
def DOWNLOAD_FOLDER : String := "downloads"
def BIN_FOLDER : String := "bin"

def LOCKED_ENVIRONMENT_VARIABLES : List String :=
  [CONFIG_ENV, DRIVER_LOCATION_ENV]

/-! ### Error kinds (`error.py` exposes one class per kind; only the kind
matters to the claims) -/

inductive DriverError where
  | configError (msg : String)
  | initError (msg : String)
  | sdkError (msg : String)
  | tarError (msg : String)
  | valueError (msg : String)
deriving DecidableEq

deriving instance DecidableEq for Except

/-! ### `SDK.RunGcloud` output decoding (`driver.py`)

`RunGcloudRawOutput` is the raw runner; its result is a parameter here.  The
`json.loads` call is a standard-library decoder, abstracted as any partial
decoding function: `RunGcloud` only distinguishes success from `ValueError`. -/

inductive GcloudValue (J : Type) where
  | null
  | json (j : J)
  | raw (s : String)
deriving DecidableEq

/-- Embedding of the tail of `SDK.RunGcloud`: its treatment of the
`(out, err, returncode)` triple received from `RunGcloudRawOutput`. -/
def RunGcloudDecode {J : Type} (decode : String → Option J)
    (raw : String × String × Int) : GcloudValue J × String × Int :=
  let (out, err, code) := raw
  if out = "" then (GcloudValue.null, err, code)
  else
    match decode out with
    | some j => (GcloudValue.json j, err, code)
    | none => (GcloudValue.raw out, err, code)

/-! ### `PrepareEnviron` (`_config.py`) -/

def truthyOptStr : Option String → Bool
  | none => false
  | some s => s != ""

/-- Python substring test `needle in hay`. -/
def substrB (needle hay : String) : Bool :=
  decide (needle.data <:+: hay.data)

/-- Final `PYTHONPATH` handling of `PrepareEnviron`: an existing value is
prefixed onto the interpreter's current search path. -/
def finishPythonPath (environ : List (String × String)) (sys_path : List String) :
    List (String × String) :=
  match lookupS environ PYTHON_PATH with
  | none => setS environ PYTHON_PATH (joinSep ":" sys_path)
  | some v => setS environ PYTHON_PATH (joinSep ":" (v :: sys_path))

/-- PATH component list built by `PrepareEnviron`: the binary folder first,
then the user value when present, then the host value unless it is already a
substring of the user value. -/
def preparePathComponents (userPath : Option String) (bin os_path : String) :
    List String :=
  let path1 : List String := match userPath with
    | some p => [bin, p]
    | none => [bin]
  if userPath.isNone || !substrB os_path (userPath.getD "") then
    path1 ++ [os_path]
  else path1

/-- Embedding of `_config.PrepareEnviron`.  `os_environ_path` is the host
`os.environ['PATH']`, `sys_executable`/`sys_path` the interpreter metadata. -/
def PrepareEnviron (user_environ : List (String × String))
    (config_name sdk_dir : String) (os_environ_path : String)
    (sys_executable : Option String) (sys_path : List String) :
    Except DriverError (List (String × String)) :=
  let bin_folder := pathJoin sdk_dir BIN_FOLDER
  let environ := setS user_environ "PATH"
    (joinSep ":"
      (preparePathComponents (lookupS user_environ "PATH") bin_folder os_environ_path))
  let environ := setS environ CONFIG_ENV (pathJoin sdk_dir config_name)
  let pyEnv := lookupS environ PYTHON_ENV
  if pyEnv.isNone && !truthyOptStr sys_executable then
    Except.error (DriverError.sdkError "no python executable")
  else
    let environ := if pyEnv.isNone then
        setS environ PYTHON_ENV (sys_executable.getD "") else environ
    Except.ok (finishPythonPath environ sys_path)

theorem lookupS_finishPythonPath (e : List (String × String))
    (sys_path : List String) (k : String) (h : k ≠ PYTHON_PATH) :
    lookupS (finishPythonPath e sys_path) k = lookupS e k := by
  unfold finishPythonPath
  cases lookupS e PYTHON_PATH <;> simp [lookupS_setS_ne _ _ _ _ h]

/-- The value bound to `PATH` in a successful `PrepareEnviron` result. -/
theorem lookupS_pathValue_prepareEnviron (user_environ : List (String × String))
    (config_name sdk_dir os_path : String) (sys_executable : Option String)
    (sys_path : List String) (env : List (String × String))
    (h : PrepareEnviron user_environ config_name sdk_dir os_path sys_executable
          sys_path = Except.ok env) :
    lookupS env "PATH" = some (joinSep ":"
      (preparePathComponents (lookupS user_environ "PATH")
        (pathJoin sdk_dir BIN_FOLDER) os_path)) := by
  unfold PrepareEnviron at h
  have hcfg : "PATH" ≠ CONFIG_ENV := by decide
  have hpy : "PATH" ≠ PYTHON_ENV := by decide
  have hpp : "PATH" ≠ PYTHON_PATH := by decide
  dsimp only [] at h
  split at h
  · exact absurd h (by simp)
  · injection h with h
    subst h
    rw [lookupS_finishPythonPath _ _ _ hpp]
    split
    · rw [lookupS_setS_ne _ _ _ _ hpy, lookupS_setS_ne _ _ _ _ hcfg,
        lookupS_setS_self]
    · rw [lookupS_setS_ne _ _ _ _ hcfg, lookupS_setS_self]

/-! ### Theorems for C9 and C5 -/

/-- C9: for every command, `RunGcloud` returns the `None` sentinel as its
decoded value when the underlying stdout is empty, and returns the raw stdout
string unchanged (without raising) when stdout is non-empty but fails JSON
decoding; in both cases the stderr and exit code are returned exactly as
received from the raw runner. -/
theorem runGcloud_decode_spec {J : Type} (decode : String → Option J)
    (out err : String) (code : Int) :
    (out = "" →
      RunGcloudDecode decode (out, err, code) = (GcloudValue.null, err, code)) ∧
    (out ≠ "" → decode out = none →
      RunGcloudDecode decode (out, err, code) = (GcloudValue.raw out, err, code)) ∧
    (RunGcloudDecode decode (out, err, code)).2.1 = err ∧
    (RunGcloudDecode decode (out, err, code)).2.2 = code := by
  refine ⟨fun h => by simp [RunGcloudDecode, h], fun h hd => by simp [RunGcloudDecode, h, hd], ?_, ?_⟩
  · unfold RunGcloudDecode
    by_cases h : out = "" <;> simp [h] <;> cases hd : decode out <;> simp
  · unfold RunGcloudDecode
    by_cases h : out = "" <;> simp [h] <;> cases hd : decode out <;> simp

/-- Witness for C9 at concrete inputs. -/
theorem runGcloud_decode_spec_witness :
    RunGcloudDecode (fun _ => (none : Option Nat)) ("", "e", 3) =
      (GcloudValue.null, "e", 3) ∧
    RunGcloudDecode (fun _ => (none : Option Nat)) ("x", "e", 3) =
      (GcloudValue.raw "x", "e", 3) :=
  ⟨(runGcloud_decode_spec (fun _ => (none : Option Nat)) "" "e" 3).1 rfl,
   (runGcloud_decode_spec (fun _ => (none : Option Nat)) "x" "e" 3).2.1
     (by decide) rfl⟩

/-- C5: `PrepareEnviron` returns an environment whose `PATH` begins with the
SDK binary directory; a `PATH` is produced even when the input map has no
`PATH` key; and when the input `PATH` already contains the host `PATH` value
as a substring, the host value is not appended again. -/
theorem prepareEnviron_path_spec (user_environ : List (String × String))
    (config_name sdk_dir os_path : String) (sys_executable : Option String)
    (sys_path : List String) (env : List (String × String))
    (h : PrepareEnviron user_environ config_name sdk_dir os_path sys_executable
          sys_path = Except.ok env) :
    (∃ rest, lookupS env "PATH" = some (pathJoin sdk_dir "bin" ++ ":" ++ rest)) ∧
    (lookupS user_environ "PATH" = none →
      lookupS env "PATH" = some (pathJoin sdk_dir "bin" ++ ":" ++ os_path)) ∧
    (∀ p, lookupS user_environ "PATH" = some p → substrB os_path p = true →
      lookupS env "PATH" = some (pathJoin sdk_dir "bin" ++ ":" ++ p)) := by
  have hsurv := lookupS_pathValue_prepareEnviron user_environ config_name sdk_dir
    os_path sys_executable sys_path env h
  refine ⟨?_, ?_, ?_⟩
  · cases hup : lookupS user_environ "PATH" with
    | none =>
      refine ⟨os_path, ?_⟩
      rw [hsurv, hup]
      simp [preparePathComponents, joinSep, BIN_FOLDER, String.append_assoc]
    | some p =>
      rw [hsurv, hup]
      by_cases hs : substrB os_path p
      · refine ⟨p, ?_⟩
        simp [preparePathComponents, hs, joinSep, BIN_FOLDER, String.append_assoc]
      · refine ⟨p ++ ":" ++ os_path, ?_⟩
        simp [preparePathComponents, hs, joinSep, BIN_FOLDER, String.append_assoc]
  · intro hup
    rw [hsurv, hup]
    simp [preparePathComponents, joinSep, BIN_FOLDER, String.append_assoc]
  · intro p hup hs
    rw [hsurv, hup]
    simp [preparePathComponents, hs, joinSep, BIN_FOLDER, String.append_assoc]

/-- Witness for C5 at a concrete input: a user map whose `PATH` already
contains the host path as a substring. -/
theorem prepareEnviron_path_spec_witness :
    PrepareEnviron [("PATH", "hosty:extra")] "configx" "/sdk" "hosty"
        (some "/usr/bin/python") ["sp"] = Except.ok
        [("PATH", "/sdk/bin:hosty:extra"), ("CLOUDSDK_CONFIG", "/sdk/configx"),
         ("CLOUDSDK_PYTHON", "/usr/bin/python"), ("PYTHONPATH", "sp")] ∧
    lookupS [("PATH", "/sdk/bin:hosty:extra"), ("CLOUDSDK_CONFIG", "/sdk/configx"),
         ("CLOUDSDK_PYTHON", "/usr/bin/python"), ("PYTHONPATH", "sp")] "PATH" =
      some (pathJoin "/sdk" "bin" ++ ":" ++ "hosty:extra") := by
  have h : PrepareEnviron [("PATH", "hosty:extra")] "configx" "/sdk" "hosty"
      (some "/usr/bin/python") ["sp"] = Except.ok
        [("PATH", "/sdk/bin:hosty:extra"), ("CLOUDSDK_CONFIG", "/sdk/configx"),
         ("CLOUDSDK_PYTHON", "/usr/bin/python"), ("PYTHONPATH", "sp")] := by rfl
  have hs := prepareEnviron_path_spec [("PATH", "hosty:extra")] "configx" "/sdk"
    "hosty" (some "/usr/bin/python") ["sp"] _ h
  exact ⟨h, hs.2.2 "hosty:extra" rfl (by rfl)⟩

/-! ### The installation lifecycle (`driver.Init` / `driver.Destroy`)

The process state is the environment plus the set of existing directories.
The external effects of `Init` — `tempfile.mkdtemp`, the download, the tar
extraction, the installer subprocess and its resulting SDK directory — are
oracle parameters (`InitExt`) recording the name of the generated temporary
directory and whether each step succeeds.  Created files below the root are
not tracked: the claims about `Init`/`Destroy` concern the root directory and
the two driver environment variables. -/

structure SysState where
  environ : List (String × String)
  dirs : List String
deriving DecidableEq

structure InitExt where
  tmpdir : String
  downloadOk : Bool
  unpackOk : Bool
  sysExecutable : Option String
  installOk : Bool
  sdkDirOk : Bool
deriving DecidableEq

/-- Tail of `Init` after the root-directory handling: download, unpack, the
interpreter check, the installer run and the SDK-directory check, publishing
the driver-location variable only when everything succeeded. -/
def initTail (ext : InitExt) (root : String) (s1 : SysState) :
    Except DriverError Unit × SysState :=
  if !ext.downloadOk then (Except.error (DriverError.tarError "downloading"), s1)
  else if !ext.unpackOk then (Except.error (DriverError.tarError "extracting"), s1)
  else if !(truthyOptStr ext.sysExecutable || (lookupS s1.environ PYTHON_ENV).isSome) then
    (Except.error (DriverError.initError "no python"), s1)
  else if !ext.installOk then
    (Except.error (DriverError.initError "SDK installation failed"), s1)
  else if !ext.sdkDirOk then
    (Except.error (DriverError.initError "SDK directory was not created"), s1)
  else (Except.ok (), { s1 with environ := setS s1.environ DRIVER_LOCATION_ENV root })

/-- Embedding of `driver.Init` (POSIX branch). -/
def InitStep (ext : InitExt) (rootArg : Option String) (s : SysState) :
    Except DriverError Unit × SysState :=
  if (lookupS s.environ DRIVER_LOCATION_ENV).isSome then
    (Except.error (DriverError.initError "Driver is already initialized."), s)
  else
    let root := rootArg.getD ext.tmpdir
    let s1 : SysState :=
      match rootArg with
      | none => { s with dirs := ext.tmpdir :: s.dirs }
      | some r =>
        if s.dirs.contains r then
          { s with environ := setS s.environ DRIVER_KEEP_LOCATION_ENV "True" }
        else { s with dirs := r :: s.dirs }
    initTail ext root s1

/-- Model of `shutil.rmtree`: the directory and everything below it vanish. -/
def removeTree (root : String) (dirs : List String) : List String :=
  dirs.filter (fun d => !(d == root || strStartsWith (root ++ "/") d))

/-- Embedding of `driver.Destroy`. -/
def DestroyStep (s : SysState) : SysState :=
  let root := lookupS s.environ DRIVER_LOCATION_ENV
  let keep := lookupS s.environ DRIVER_KEEP_LOCATION_ENV
  let s1 :=
    match root with
    | none => s
    | some r =>
      let s' := if s.dirs.contains r && !truthyOptStr keep then
          { s with dirs := removeTree r s.dirs } else s
      { s' with environ := removeS s'.environ DRIVER_LOCATION_ENV }
  match keep with
  | none => s1
  | some _ => { s1 with environ := removeS s1.environ DRIVER_KEEP_LOCATION_ENV }

theorem initTail_cases (ext : InitExt) (root : String) (s1 : SysState) :
    initTail ext root s1 =
      (Except.ok (), { s1 with environ := setS s1.environ DRIVER_LOCATION_ENV root }) ∨
    ∃ e, initTail ext root s1 = (Except.error e, s1) := by
  unfold initTail
  split
  · exact Or.inr ⟨_, rfl⟩
  · split
    · exact Or.inr ⟨_, rfl⟩
    · split
      · exact Or.inr ⟨_, rfl⟩
      · split
        · exact Or.inr ⟨_, rfl⟩
        · split
          · exact Or.inr ⟨_, rfl⟩
          · exact Or.inl rfl

theorem initTail_all_ok (ext : InitExt) (root : String) (s1 : SysState)
    (hd : ext.downloadOk = true) (hu : ext.unpackOk = true)
    (hpy : truthyOptStr ext.sysExecutable = true)
    (hi : ext.installOk = true) (hsd : ext.sdkDirOk = true) :
    initTail ext root s1 =
      (Except.ok (), { s1 with environ := setS s1.environ DRIVER_LOCATION_ENV root }) := by
  unfold initTail
  simp [hd, hu, hpy, hi, hsd]

/-! ### Theorems for C8, C10 and C2 -/

/-- C8: whenever an installation record is already active (the driver-location
variable is set), a second call to `Init` fails with the driver-state error
("Driver is already initialized", raised as `error.InitError`) and leaves the
process state — environment and installed directories — exactly unchanged. -/
theorem init_second_call_fails (ext : InitExt) (rootArg : Option String)
    (s : SysState) (v : String)
    (h : lookupS s.environ DRIVER_LOCATION_ENV = some v) :
    InitStep ext rootArg s =
      (Except.error (DriverError.initError "Driver is already initialized."), s) := by
  unfold InitStep
  simp [h]

/-- Witness for C8 at a concrete state. -/
theorem init_second_call_fails_witness :
    InitStep ⟨"tmp", true, true, some "py", true, true⟩ none
        ⟨[("CLOUDSDK_DRIVER_LOCATION", "loc")], ["loc"]⟩ =
      (Except.error (DriverError.initError "Driver is already initialized."),
        ⟨[("CLOUDSDK_DRIVER_LOCATION", "loc")], ["loc"]⟩) :=
  init_second_call_fails _ none _ "loc" rfl

/-- C10: with a caller-supplied root directory that already exists, the
keep-location marker is set before any download, extraction or installer step,
so it is set in the final state whether `Init` succeeds or fails at a later
step, while a failure leaves the driver-location variable unpublished. -/
theorem init_keep_marker_set_early (ext : InitExt) (r : String) (s : SysState)
    (hloc : lookupS s.environ DRIVER_LOCATION_ENV = none)
    (hdir : s.dirs.contains r = true) :
    lookupS (InitStep ext (some r) s).2.environ DRIVER_KEEP_LOCATION_ENV =
      some "True" ∧
    (∀ e, (InitStep ext (some r) s).1 = Except.error e →
      lookupS (InitStep ext (some r) s).2.environ DRIVER_LOCATION_ENV = none) := by
  have hne : DRIVER_KEEP_LOCATION_ENV ≠ DRIVER_LOCATION_ENV := by decide
  have hne' : DRIVER_LOCATION_ENV ≠ DRIVER_KEEP_LOCATION_ENV := by decide
  unfold InitStep
  simp only [hloc, Option.isSome_none, Bool.false_eq_true, if_false, hdir, if_true,
    Option.getD_some]
  rcases initTail_cases ext r { s with environ := setS s.environ DRIVER_KEEP_LOCATION_ENV "True" } with hcase | ⟨e, hcase⟩
  · rw [hcase]
    refine ⟨?_, ?_⟩
    · rw [lookupS_setS_ne _ _ _ _ hne, lookupS_setS_self]
    · intro e' h'
      exact absurd h' (by simp)
  · rw [hcase]
    refine ⟨lookupS_setS_self _ _ _, ?_⟩
    intro e' h'
    rw [lookupS_setS_ne _ _ _ _ hne', hloc]

/-- Witness for C10 at a concrete state where the download step fails. -/
theorem init_keep_marker_set_early_witness :
    lookupS (InitStep ⟨"tmp", false, true, some "py", true, true⟩ (some "myroot")
        ⟨[], ["myroot"]⟩).2.environ DRIVER_KEEP_LOCATION_ENV = some "True" ∧
    lookupS (InitStep ⟨"tmp", false, true, some "py", true, true⟩ (some "myroot")
        ⟨[], ["myroot"]⟩).2.environ DRIVER_LOCATION_ENV = none := by
  have h := init_keep_marker_set_early ⟨"tmp", false, true, some "py", true, true⟩
    "myroot" ⟨[], ["myroot"]⟩ rfl rfl
  exact ⟨h.1, h.2 (DriverError.tarError "downloading") (by rfl)⟩

/-- Counterexample to C2 as stated: a caller-supplied root directory that did
not yet exist is created by `Init` without the keep-location marker, and a
subsequent `Destroy` removes it — so a caller-supplied root is not always
preserved. -/
theorem init_destroy_caller_root_counterexample :
    (InitStep ⟨"tmp", true, true, some "py", true, true⟩ (some "myroot")
        ⟨[], []⟩).1 = Except.ok () ∧
    "myroot" ∉ (DestroyStep (InitStep ⟨"tmp", true, true, some "py", true, true⟩
        (some "myroot") ⟨[], []⟩).2).dirs := by decide

/-- C2 (amended): after a successful `Init` on a clean state, `Destroy`
preserves a caller-supplied root directory that already existed (the whole
directory set is untouched), removes a caller-supplied root directory that
`Init` itself had to create, and removes a generated temporary root. -/
theorem init_destroy_root_disposition (ext : InitExt) (rootArg : Option String)
    (s : SysState)
    (hloc : lookupS s.environ DRIVER_LOCATION_ENV = none)
    (hkeep : lookupS s.environ DRIVER_KEEP_LOCATION_ENV = none)
    (hd : ext.downloadOk = true) (hu : ext.unpackOk = true)
    (hpy : truthyOptStr ext.sysExecutable = true)
    (hi : ext.installOk = true) (hsd : ext.sdkDirOk = true) :
    (InitStep ext rootArg s).1 = Except.ok () ∧
    (∀ r, rootArg = some r → s.dirs.contains r = true →
      (DestroyStep (InitStep ext rootArg s).2).dirs = s.dirs) ∧
    (∀ r, rootArg = some r → s.dirs.contains r = false →
      r ∉ (DestroyStep (InitStep ext rootArg s).2).dirs) ∧
    (rootArg = none →
      ext.tmpdir ∉ (DestroyStep (InitStep ext rootArg s).2).dirs) := by
  have hne : DRIVER_KEEP_LOCATION_ENV ≠ DRIVER_LOCATION_ENV := by decide
  have hne' : DRIVER_LOCATION_ENV ≠ DRIVER_KEEP_LOCATION_ENV := by decide
  unfold InitStep
  simp only [hloc, Option.isSome_none, Bool.false_eq_true, if_false]
  rcases rootArg with _ | r
  · -- generated temporary root
    simp only [Option.getD_none]
    rw [initTail_all_ok ext _ _ hd hu hpy hi hsd]
    refine ⟨rfl, ?_, ?_, fun _ => ?_⟩
    · intro r h
      exact Option.noConfusion h
    · intro r h
      exact Option.noConfusion h
    · unfold DestroyStep
      rw [lookupS_setS_self, lookupS_setS_ne _ _ _ _ hne, hkeep]
      simp only [truthyOptStr, Bool.not_false, List.contains_cons, beq_self_eq_true,
        Bool.true_or, Bool.and_true, if_true]
      simp only [removeTree, List.mem_filter]
      rintro ⟨-, habs⟩
      simp at habs
  · simp only [Option.getD_some]
    by_cases hmem : s.dirs.contains r
    · -- pre-existing caller-supplied root: keep marker set, directory kept
      simp only [hmem, if_true]
      rw [initTail_all_ok ext _ _ hd hu hpy hi hsd]
      refine ⟨rfl, ?_, ?_, ?_⟩
      · intro r' hr hmem'
        injection hr with hr
        subst hr
        unfold DestroyStep
        rw [lookupS_setS_self, lookupS_setS_ne _ _ _ _ hne, lookupS_setS_self]
        simp [truthyOptStr]
      · intro r' hr hcontra
        injection hr with hr
        subst hr
        rw [hmem] at hcontra
        cases hcontra
      · intro h
        exact Option.noConfusion h
    · -- caller-supplied root that had to be created: removed again
      simp only [hmem, Bool.false_eq_true, if_false]
      rw [initTail_all_ok ext _ _ hd hu hpy hi hsd]
      refine ⟨rfl, ?_, ?_, ?_⟩
      · intro r' hr hcontra
        injection hr with hr
        subst hr
        exact absurd hcontra hmem
      · intro r' hr _
        injection hr with hr
        subst hr
        unfold DestroyStep
        rw [lookupS_setS_self, lookupS_setS_ne _ _ _ _ hne, hkeep]
        simp only [truthyOptStr, Bool.not_false, List.contains_cons, beq_self_eq_true,
          Bool.true_or, Bool.and_true, if_true]
        simp only [removeTree, List.mem_filter]
        rintro ⟨-, habs⟩
        simp at habs
      · intro h
        exact Option.noConfusion h

/-- Witness for the amended C2 at concrete states covering all three root
dispositions. -/
theorem init_destroy_root_disposition_witness :
    (DestroyStep (InitStep ⟨"tmp", true, true, some "py", true, true⟩
        (some "kept") ⟨[], ["kept"]⟩).2).dirs = ["kept"] ∧
    "fresh" ∉ (DestroyStep (InitStep ⟨"tmp", true, true, some "py", true, true⟩
        (some "fresh") ⟨[], ["kept"]⟩).2).dirs ∧
    "tmp" ∉ (DestroyStep (InitStep ⟨"tmp", true, true, some "py", true, true⟩
        none ⟨[], ["kept"]⟩).2).dirs := by
  refine ⟨?_, ?_, ?_⟩
  · exact (init_destroy_root_disposition ⟨"tmp", true, true, some "py", true, true⟩
      (some "kept") ⟨[], ["kept"]⟩ rfl rfl rfl rfl rfl rfl rfl).2.1 "kept" rfl rfl
  · exact (init_destroy_root_disposition ⟨"tmp", true, true, some "py", true, true⟩
      (some "fresh") ⟨[], ["kept"]⟩ rfl rfl rfl rfl rfl rfl rfl).2.2.1 "fresh" rfl rfl
  · exact (init_destroy_root_disposition ⟨"tmp", true, true, some "py", true, true⟩
      none ⟨[], ["kept"]⟩ rfl rfl rfl rfl rfl rfl rfl).2.2.2 rfl

/-! ### `DownloadTar` (`_sdk_tar.py`)

The network is a counter of fetches performed; the local file system is the
list of existing files.  The download directory creation (`os.makedirs`) has
no observable effect on these claims and is not tracked. -/

structure NetState where
  files : List String
  fetches : Nat
deriving DecidableEq

/-- Embedding of `_sdk_tar.DownloadTar`.  `fetchOk` is the outcome of
`urllib2.urlopen` plus the copy to disk. -/
def DownloadTar (fetchOk : Bool) (tar_location download_directory : String)
    (st : NetState) : Except DriverError (String × NetState) :=
  if urlScheme tar_location != "" then
    let ddir := pathJoin download_directory DOWNLOAD_FOLDER
    let tar_name := basenameP (urlsplitPath tar_location)
    let download_path := pathJoin ddir tar_name
    if st.files.contains download_path then Except.ok (download_path, st)
    else if fetchOk then
      Except.ok (download_path, ⟨download_path :: st.files, st.fetches + 1⟩)
    else Except.error (DriverError.tarError "downloading")
  else if st.files.contains tar_location then Except.ok (tar_location, st)
  else Except.error (DriverError.valueError "does not exist")

/-- C6: for a remote URL whose target file already exists in the download
subdirectory, `DownloadTar` returns that path without fetching; consequently
two successive resolutions of the same URL perform exactly one fetch. -/
theorem downloadTar_cached_single_fetch (fetchOk : Bool) (loc ddir : String)
    (st : NetState) (hscheme : urlScheme loc ≠ "") :
    (pathJoin (pathJoin ddir DOWNLOAD_FOLDER) (basenameP (urlsplitPath loc)) ∈ st.files →
      DownloadTar fetchOk loc ddir st = Except.ok
        (pathJoin (pathJoin ddir DOWNLOAD_FOLDER) (basenameP (urlsplitPath loc)), st)) ∧
    (pathJoin (pathJoin ddir DOWNLOAD_FOLDER) (basenameP (urlsplitPath loc)) ∉ st.files →
      DownloadTar true loc ddir st = Except.ok
        (pathJoin (pathJoin ddir DOWNLOAD_FOLDER) (basenameP (urlsplitPath loc)),
          ⟨pathJoin (pathJoin ddir DOWNLOAD_FOLDER) (basenameP (urlsplitPath loc)) :: st.files,
            st.fetches + 1⟩) ∧
      DownloadTar true loc ddir
          ⟨pathJoin (pathJoin ddir DOWNLOAD_FOLDER) (basenameP (urlsplitPath loc)) :: st.files,
            st.fetches + 1⟩ = Except.ok
        (pathJoin (pathJoin ddir DOWNLOAD_FOLDER) (basenameP (urlsplitPath loc)),
          ⟨pathJoin (pathJoin ddir DOWNLOAD_FOLDER) (basenameP (urlsplitPath loc)) :: st.files,
            st.fetches + 1⟩)) := by
  have hb : (urlScheme loc != "") = true := by
    simp [bne, hscheme]
  constructor
  · intro hmem
    unfold DownloadTar
    simp [hb, hmem]
  · intro hmem
    constructor
    · unfold DownloadTar
      simp [hb, hmem]
    · unfold DownloadTar
      simp [hb]

/-- Witness for C6 at a concrete URL and state. -/
theorem downloadTar_cached_single_fetch_witness :
    DownloadTar true "http://foo/bar.tar" "/root" ⟨[], 0⟩ = Except.ok
      ("/root/downloads/bar.tar", ⟨["/root/downloads/bar.tar"], 1⟩) ∧
    DownloadTar true "http://foo/bar.tar" "/root" ⟨["/root/downloads/bar.tar"], 1⟩ =
      Except.ok ("/root/downloads/bar.tar", ⟨["/root/downloads/bar.tar"], 1⟩) := by
  have h := (downloadTar_cached_single_fetch true "http://foo/bar.tar" "/root"
    ⟨[], 0⟩ (by decide)).2 (by decide)
  have e1 : pathJoin (pathJoin "/root" DOWNLOAD_FOLDER)
      (basenameP (urlsplitPath "http://foo/bar.tar")) = "/root/downloads/bar.tar" := by decide
  constructor
  · have := h.1
    rw [e1] at this
    exact this
  · have := h.2
    rw [e1] at this
    exact this

/-! ### Configuration values (`constants.DEFAULT_CONFIG`, `Config.__init__`)

A configuration value is `None`, a string, or a flat string-to-string
dictionary; a configuration is a dictionary from the fixed key set to such
values.  Insertion order in the model is immaterial: every observation is by
key or through the sorted-key serialization (Python 2 dictionaries are
unordered). -/

inductive PValue where
  | null
  | str (s : String)
  | dict (entries : List (String × String))
deriving DecidableEq

def lookupP : List (String × PValue) → String → Option PValue
  | [], _ => none
  | kv :: rest, k => if kv.1 == k then some kv.2 else lookupP rest k

def setP : List (String × PValue) → String → PValue → List (String × PValue)
  | [], k, v => [(k, v)]
  | kv :: rest, k, v => if kv.1 == k then (k, v) :: rest else kv :: setP rest k v

/-- Python `dict.update`: later bindings override in place. -/
def updateP (d u : List (String × PValue)) : List (String × PValue) :=
  u.foldl (fun a kv => setP a kv.1 kv.2) d

def DEFAULT_CONFIG : List (String × PValue) :=
  [("environment_variables",
     PValue.dict [("CLOUDSDK_CORE_DISABLE_PROMPTS", "1")]),
   ("service_account_email", PValue.null),
   ("service_account_keyfile", PValue.null),
   ("project", PValue.null),
   ("properties", PValue.dict [])]

def configKeys : List String := DEFAULT_CONFIG.map Prod.fst

/-- Embedding of `BaseConfig._UpdateDict`: reject the first key not present in
the default configuration, then update.  (`copy.deepcopy` is the identity on
pure values; aliasing is treated separately in the store model below.) -/
def UpdateDict (d u : List (String × PValue)) :
    Except DriverError (List (String × PValue)) :=
  match u.find? (fun kv => !configKeys.contains kv.1) with
  | some kv => Except.error (DriverError.configError ("Invalid key " ++ kv.1))
  | none => Except.ok (updateP d u)

/-- First binding of a locked variable name in an environment map. -/
def lockedFind (env : List (String × String)) : Option (String × String) :=
  env.find? (fun kv => LOCKED_ENVIRONMENT_VARIABLES.contains kv.1)

def validateEnvMap (env : List (String × String)) : Except DriverError Unit :=
  match lockedFind env with
  | some kv => Except.error (DriverError.configError ("Locked variable " ++ kv.1))
  | none => Except.ok ()

/-- Modelled from the spec: the repository module `error.py` is not among the
sources.  Per the spec, validation of a candidate dictionary fails with a
`ConfigError` when a name from the fixed locked list appears as a key inside
its `environment_variables` value ("certain reserved environment-variable
names may never appear inside the `environment_variables` value"). -/
def ValidateLockedEnvironmentVariables (d : List (String × PValue)) :
    Except DriverError Unit :=
  match lookupP d "environment_variables" with
  | some (PValue.dict env) => validateEnvMap env
  | _ => Except.ok ()

/-- Parsed YAML content handed to `Config.LoadFile`: the `yaml.load` call can
fail, can produce a non-dictionary, or produces a dictionary overlay. -/
inductive YamlFile where
  | unparsable
  | notDict
  | dict (d : List (String × PValue))
deriving DecidableEq

/-- Embedding of `Config.LoadFile`. -/
def LoadFile (cur : List (String × PValue)) :
    YamlFile → Except DriverError (List (String × PValue))
  | YamlFile.unparsable =>
    Except.error (DriverError.configError "Invalid config file")
  | YamlFile.notDict =>
    Except.error (DriverError.configError "Top level is not a dictionary.")
  | YamlFile.dict cfg =>
    match ValidateLockedEnvironmentVariables cfg with
    | Except.error e => Except.error e
    | Except.ok () => UpdateDict cur cfg

/-- Dictionary state after the default/file stage of `Config.__init__`. -/
def configBase (file : Option YamlFile) :
    Except DriverError (List (String × PValue)) :=
  match file with
  | none => Except.ok DEFAULT_CONFIG
  | some f => LoadFile DEFAULT_CONFIG f

/-- Keyword-override stage of `Config.__init__` followed by the final
locked-variable validation. -/
def configFinish (d1res : Except DriverError (List (String × PValue)))
    (kwargs : List (String × PValue)) :
    Except DriverError (List (String × PValue)) :=
  match d1res with
  | Except.error e => Except.error e
  | Except.ok d1 =>
    match UpdateDict d1 kwargs with
    | Except.error e => Except.error e
    | Except.ok d2 =>
      match ValidateLockedEnvironmentVariables d2 with
      | Except.error e => Except.error e
      | Except.ok () => Except.ok d2

/-- Embedding of `Config.__init__`: defaults, then the file overlay, then the
keyword overrides, then the final locked-variable validation. -/
def ConfigInit (file : Option YamlFile) (kwargs : List (String × PValue)) :
    Except DriverError (List (String × PValue)) :=
  configFinish (configBase file) kwargs

/-- The `environment_variables` value of a configuration dictionary. -/
def envOf (d : List (String × PValue)) : List (String × String) :=
  match lookupP d "environment_variables" with
  | some (PValue.dict env) => env
  | _ => []

/-- Whether a configuration dictionary's `environment_variables` value binds a
locked variable name. -/
def envHasLocked (d : List (String × PValue)) : Bool :=
  (envOf d).any (fun kv => LOCKED_ENVIRONMENT_VARIABLES.contains kv.1)

theorem validateLocked_ok (d : List (String × PValue))
    (h : envHasLocked d = false) :
    ValidateLockedEnvironmentVariables d = Except.ok () := by
  unfold ValidateLockedEnvironmentVariables
  unfold envHasLocked envOf at h
  cases he : lookupP d "environment_variables" with
  | none => rfl
  | some v =>
    cases v with
    | null => rfl
    | str s => rfl
    | dict env =>
      rw [he] at h
      show validateEnvMap env = Except.ok ()
      unfold validateEnvMap lockedFind
      cases hf : env.find? (fun kv => LOCKED_ENVIRONMENT_VARIABLES.contains kv.1) with
      | none => rfl
      | some kv =>
        have := List.find?_some hf
        have hmem := List.mem_of_find?_eq_some hf
        rw [List.any_eq_false] at h
        exact absurd this (by simpa using h kv hmem)

theorem validateLocked_err (d : List (String × PValue))
    (h : envHasLocked d = true) :
    ∃ msg, ValidateLockedEnvironmentVariables d =
      Except.error (DriverError.configError msg) := by
  unfold ValidateLockedEnvironmentVariables
  unfold envHasLocked envOf at h
  cases he : lookupP d "environment_variables" with
  | none => rw [he] at h; simp at h
  | some v =>
    cases v with
    | null => rw [he] at h; simp at h
    | str s => rw [he] at h; simp at h
    | dict env =>
      rw [he] at h
      show ∃ msg, validateEnvMap env = Except.error (DriverError.configError msg)
      unfold validateEnvMap lockedFind
      cases hf : env.find? (fun kv => LOCKED_ENVIRONMENT_VARIABLES.contains kv.1) with
      | none =>
        rw [List.any_eq_true] at h
        obtain ⟨kv, hmem, hl⟩ := h
        rw [List.find?_eq_none] at hf
        exact absurd hl (by simpa using hf kv hmem)
      | some kv => exact ⟨"Locked variable " ++ kv.1, rfl⟩

theorem updateDict_ok (d u : List (String × PValue))
    (h : ∀ kv ∈ u, configKeys.contains kv.1 = true) :
    UpdateDict d u = Except.ok (updateP d u) := by
  unfold UpdateDict
  have : u.find? (fun kv => !configKeys.contains kv.1) = none := by
    rw [List.find?_eq_none]
    intro kv hmem
    simpa using h kv hmem
  rw [this]

/-! ### Theorems for C1 -/

/-- Counterexample to C1 as stated: a file overlay whose
`environment_variables` binds a locked name fails construction inside
`LoadFile` even when the keyword overrides replace the environment map with a
clean one, so the resulting `environment_variables` mapping (here the keyword
value, containing no locked name) does not decide the outcome. -/
theorem config_locked_counterexample :
    (updateP (updateP DEFAULT_CONFIG
        [("environment_variables", PValue.dict [("CLOUDSDK_CONFIG", "foo")])])
        [("environment_variables", PValue.dict [("A", "B")])] |> envHasLocked) = false ∧
    ConfigInit
      (some (YamlFile.dict
        [("environment_variables", PValue.dict [("CLOUDSDK_CONFIG", "foo")])]))
      [("environment_variables", PValue.dict [("A", "B")])] =
      Except.error (DriverError.configError "Locked variable CLOUDSDK_CONFIG") := by
  constructor
  · rfl
  · rfl

/-- C1 (amended): under valid keys, construction fails with a `ConfigError`
iff the resulting `environment_variables` mapping binds a locked name or the
loaded file overlay's `environment_variables` binds a locked name; with both
clean, construction succeeds and returns the overlaid dictionary. -/
theorem configInit_locked_spec (file : Option (List (String × PValue)))
    (kwargs : List (String × PValue))
    (hf : ∀ kv ∈ file.getD [], configKeys.contains kv.1 = true)
    (hk : ∀ kv ∈ kwargs, configKeys.contains kv.1 = true) :
    (envHasLocked (file.getD []) = false →
      envHasLocked (updateP (updateP DEFAULT_CONFIG (file.getD [])) kwargs) = false →
      ConfigInit (file.map YamlFile.dict) kwargs =
        Except.ok (updateP (updateP DEFAULT_CONFIG (file.getD [])) kwargs)) ∧
    (envHasLocked (file.getD []) = true ∨
      envHasLocked (updateP (updateP DEFAULT_CONFIG (file.getD [])) kwargs) = true →
      ∃ msg, ConfigInit (file.map YamlFile.dict) kwargs =
        Except.error (DriverError.configError msg)) := by
  have hfinish_ok : ∀ d1, envHasLocked (updateP d1 kwargs) = false →
      configFinish (Except.ok d1) kwargs = Except.ok (updateP d1 kwargs) := by
    intro d1 hclean
    simp only [configFinish]
    rw [updateDict_ok _ _ hk]
    simp only []
    rw [validateLocked_ok _ hclean]
  have hfinish_err : ∀ d1, envHasLocked (updateP d1 kwargs) = true →
      ∃ msg, configFinish (Except.ok d1) kwargs =
        Except.error (DriverError.configError msg) := by
    intro d1 hdirty
    simp only [configFinish]
    rw [updateDict_ok _ _ hk]
    simp only []
    obtain ⟨msg, hmsg⟩ := validateLocked_err _ hdirty
    rw [hmsg]
    exact ⟨msg, rfl⟩
  cases file with
  | none =>
    simp only [Option.getD_none]
    have hbase : configBase none = Except.ok DEFAULT_CONFIG := rfl
    constructor
    · intro hfc hfin
      unfold ConfigInit
      show configFinish (configBase none) kwargs = _
      rw [hbase]
      exact hfinish_ok DEFAULT_CONFIG (by simpa [updateP] using hfin)
    · intro hor
      rcases hor with habs | hfin
      · exact absurd habs (by decide)
      · unfold ConfigInit
        show ∃ msg, configFinish (configBase none) kwargs =
          Except.error (DriverError.configError msg)
        rw [hbase]
        exact hfinish_err DEFAULT_CONFIG (by simpa [updateP] using hfin)
  | some cfg =>
    simp only [Option.getD_some]
    constructor
    · intro hfc hfin
      have hbase : configBase (some (YamlFile.dict cfg)) =
          Except.ok (updateP DEFAULT_CONFIG cfg) := by
        show LoadFile DEFAULT_CONFIG (YamlFile.dict cfg) = _
        simp only [LoadFile]
        rw [validateLocked_ok _ hfc]
        exact updateDict_ok _ _ (by simpa using hf)
      unfold ConfigInit
      show configFinish (configBase (some (YamlFile.dict cfg))) kwargs = _
      rw [hbase]
      exact hfinish_ok _ hfin
    · intro hor
      by_cases hfc : envHasLocked cfg = true
      · obtain ⟨msg, hmsg⟩ := validateLocked_err _ hfc
        refine ⟨msg, ?_⟩
        unfold ConfigInit
        show configFinish (configBase (some (YamlFile.dict cfg))) kwargs = _
        have hbase : configBase (some (YamlFile.dict cfg)) =
            Except.error (DriverError.configError msg) := by
          show LoadFile DEFAULT_CONFIG (YamlFile.dict cfg) = _
          simp only [LoadFile]
          rw [hmsg]
        rw [hbase]
        rfl
      · rw [Bool.not_eq_true] at hfc
        have hfin : envHasLocked (updateP (updateP DEFAULT_CONFIG cfg) kwargs) = true := by
          rcases hor with h | h
          · exact absurd h (by simp [hfc])
          · exact h
        have hbase : configBase (some (YamlFile.dict cfg)) =
            Except.ok (updateP DEFAULT_CONFIG cfg) := by
          show LoadFile DEFAULT_CONFIG (YamlFile.dict cfg) = _
          simp only [LoadFile]
          rw [validateLocked_ok _ hfc]
          exact updateDict_ok _ _ (by simpa using hf)
        unfold ConfigInit
        show ∃ msg, configFinish (configBase (some (YamlFile.dict cfg))) kwargs =
          Except.error (DriverError.configError msg)
        rw [hbase]
        exact hfinish_err _ hfin

/-- Witness for the amended C1: a clean construction succeeds, a construction
whose final environment binds a locked name fails with a `ConfigError`. -/
theorem configInit_locked_spec_witness :
    ConfigInit (some (YamlFile.dict [("project", PValue.str "p")])) [] =
      Except.ok (updateP (updateP DEFAULT_CONFIG [("project", PValue.str "p")]) []) ∧
    ∃ msg, ConfigInit none
        [("environment_variables", PValue.dict [("CLOUDSDK_DRIVER_LOCATION", "x")])] =
      Except.error (DriverError.configError msg) := by
  constructor
  · exact (configInit_locked_spec (some [("project", PValue.str "p")]) []
      (by decide) (by simp)).1 (by decide) (by decide)
  · exact (configInit_locked_spec none
      [("environment_variables", PValue.dict [("CLOUDSDK_DRIVER_LOCATION", "x")])]
      (by simp) (by decide)).2 (Or.inr (by decide))

/-! ### Aliasing model for freezing (`ImmutableConfig.__init__`, C7)

The two mutable nested dictionaries of a `Config` are heap objects reached
through addresses; the scalar fields are immediate values.  `_UpdateDict`
copies with `copy.deepcopy`, so `ImmutableConfig.__init__` allocates fresh
cells for both dictionaries.  A mutation of the original either rebinds a
scalar field, rewrites an entry of a nested dictionary in place, or rebinds a
dictionary field to a freshly allocated literal. -/

structure Store where
  next : Nat
  mem : List (Nat × List (String × String))
deriving DecidableEq

/-- Heap lookup: the newest binding of an address wins. -/
def memRead (mem : List (Nat × List (String × String))) (a : Nat) :
    List (String × String) :=
  ((mem.find? (fun c => c.1 == a)).map Prod.snd).getD []

def Store.read (st : Store) (a : Nat) : List (String × String) :=
  memRead st.mem a

def Store.write (st : Store) (a : Nat) (d : List (String × String)) : Store :=
  { st with mem := (a, d) :: st.mem }

def Store.alloc (st : Store) (d : List (String × String)) : Nat × Store :=
  (st.next, { next := st.next + 1, mem := (st.next, d) :: st.mem })

theorem memRead_cons_self (b : Nat) (d : List (String × String))
    (mem : List (Nat × List (String × String))) :
    memRead ((b, d) :: mem) b = d := by
  simp [memRead]

theorem memRead_cons_ne (b : Nat) (d : List (String × String))
    (mem : List (Nat × List (String × String))) (a : Nat) (h : a ≠ b) :
    memRead ((b, d) :: mem) a = memRead mem a := by
  simp [memRead, List.find?_cons, Ne.symm h]

structure ConfigFields where
  environment_variables : Nat
  service_account_email : Option String
  service_account_keyfile : Option String
  project : Option String
  properties : Nat
deriving DecidableEq

/-- Embedding of `ImmutableConfig.__init__`: `_UpdateDict(config.__dict__)`
deep-copies, allocating fresh cells for both nested dictionaries. -/
def freezeConfig (st : Store) (c : ConfigFields) : ConfigFields × Store :=
  let (a1, st1) := st.alloc (st.read c.environment_variables)
  let (a2, st2) := st1.alloc (st.read c.properties)
  ({ c with environment_variables := a1, properties := a2 }, st2)

/-- Values observable through a configuration object: the scalar fields plus
the contents of the two nested dictionaries. -/
def observeConfig (st : Store) (c : ConfigFields) :
    List (String × String) × Option String × Option String × Option String ×
      List (String × String) :=
  (st.read c.environment_variables, c.service_account_email,
   c.service_account_keyfile, c.project, st.read c.properties)

/-- Mutations a caller can apply to the original `Config` object. -/
inductive ConfigMut where
  | envEntry (k v : String)
  | propEntry (k v : String)
  | envAssign (d : List (String × String))
  | propAssign (d : List (String × String))
  | emailAssign (v : Option String)
  | keyfileAssign (v : Option String)
  | projectAssign (v : Option String)
deriving DecidableEq

def applyMut (st : Store) (c : ConfigFields) : ConfigMut → Store × ConfigFields
  | ConfigMut.envEntry k v =>
    (st.write c.environment_variables
      (setS (st.read c.environment_variables) k v), c)
  | ConfigMut.propEntry k v =>
    (st.write c.properties (setS (st.read c.properties) k v), c)
  | ConfigMut.envAssign d =>
    let (a, st') := st.alloc d
    (st', { c with environment_variables := a })
  | ConfigMut.propAssign d =>
    let (a, st') := st.alloc d
    (st', { c with properties := a })
  | ConfigMut.emailAssign v => (st, { c with service_account_email := v })
  | ConfigMut.keyfileAssign v => (st, { c with service_account_keyfile := v })
  | ConfigMut.projectAssign v => (st, { c with project := v })

def applyMuts (st : Store) (c : ConfigFields) : List ConfigMut → Store × ConfigFields
  | [] => (st, c)
  | m :: ms =>
    let (st', c') := applyMut st c m
    applyMuts st' c' ms

/-- Mutations through a configuration only touch that configuration's own
cells and freshly allocated ones: reads at other allocated addresses are
stable. -/
theorem applyMuts_read_stable (ms : List ConfigMut) :
    ∀ (st0 : Store) (c0 : ConfigFields) (a : Nat),
      a ≠ c0.environment_variables → a ≠ c0.properties → a < st0.next →
      (applyMuts st0 c0 ms).1.read a = st0.read a := by
  induction ms with
  | nil => intro st0 c0 a _ _ _; rfl
  | cons m ms ih =>
    intro st0 c0 a henv hprop hlt
    cases m with
    | envEntry k v =>
      show (applyMuts ⟨st0.next, (c0.environment_variables,
        setS (st0.read c0.environment_variables) k v) :: st0.mem⟩ c0 ms).1.read a = _
      rw [ih ⟨st0.next, (c0.environment_variables,
        setS (st0.read c0.environment_variables) k v) :: st0.mem⟩ c0 a henv hprop hlt]
      show memRead _ a = memRead st0.mem a
      exact memRead_cons_ne _ _ _ _ henv
    | propEntry k v =>
      show (applyMuts ⟨st0.next, (c0.properties,
        setS (st0.read c0.properties) k v) :: st0.mem⟩ c0 ms).1.read a = _
      rw [ih ⟨st0.next, (c0.properties,
        setS (st0.read c0.properties) k v) :: st0.mem⟩ c0 a henv hprop hlt]
      show memRead _ a = memRead st0.mem a
      exact memRead_cons_ne _ _ _ _ hprop
    | envAssign d =>
      show (applyMuts ⟨st0.next + 1, (st0.next, d) :: st0.mem⟩
        { c0 with environment_variables := st0.next } ms).1.read a = _
      rw [ih ⟨st0.next + 1, (st0.next, d) :: st0.mem⟩
          { c0 with environment_variables := st0.next } a
          (by simpa using Nat.ne_of_lt hlt) (by simpa using hprop)
          (by show a < st0.next + 1; omega)]
      show memRead _ a = memRead st0.mem a
      exact memRead_cons_ne _ _ _ _ (Nat.ne_of_lt hlt)
    | propAssign d =>
      show (applyMuts ⟨st0.next + 1, (st0.next, d) :: st0.mem⟩
        { c0 with properties := st0.next } ms).1.read a = _
      rw [ih ⟨st0.next + 1, (st0.next, d) :: st0.mem⟩
          { c0 with properties := st0.next } a
          (by simpa using henv) (by simpa using Nat.ne_of_lt hlt)
          (by show a < st0.next + 1; omega)]
      show memRead _ a = memRead st0.mem a
      exact memRead_cons_ne _ _ _ _ (Nat.ne_of_lt hlt)
    | emailAssign v =>
      show (applyMuts st0 { c0 with service_account_email := v } ms).1.read a = _
      exact ih _ _ a (by simpa using henv) (by simpa using hprop) hlt
    | keyfileAssign v =>
      show (applyMuts st0 { c0 with service_account_keyfile := v } ms).1.read a = _
      exact ih _ _ a (by simpa using henv) (by simpa using hprop) hlt
    | projectAssign v =>
      show (applyMuts st0 { c0 with project := v } ms).1.read a = _
      exact ih _ _ a (by simpa using henv) (by simpa using hprop) hlt

/-- C7: freezing a `Config` and then mutating the original — scalar field
assignments, in-place updates of the nested mappings, or rebinding the nested
mappings — changes nothing observable through the frozen copy; moreover the
frozen copy observes exactly the values of the original at freeze time. -/
theorem freeze_isolates_mutations (st : Store) (c : ConfigFields)
    (henv : c.environment_variables < st.next) (hprop : c.properties < st.next)
    (ms : List ConfigMut) :
    observeConfig (applyMuts (freezeConfig st c).2 c ms).1 (freezeConfig st c).1 =
      observeConfig (freezeConfig st c).2 (freezeConfig st c).1 ∧
    observeConfig (freezeConfig st c).2 (freezeConfig st c).1 =
      observeConfig st c := by
  have hfz1 : (freezeConfig st c).1 =
      { c with environment_variables := st.next, properties := st.next + 1 } := rfl
  have hfz2 : (freezeConfig st c).2 =
      { next := st.next + 2,
        mem := (st.next + 1, st.read c.properties) ::
               (st.next, st.read c.environment_variables) :: st.mem } := rfl
  constructor
  · rw [hfz1, hfz2]
    unfold observeConfig
    have h1 := applyMuts_read_stable ms
      ⟨st.next + 2, (st.next + 1, st.read c.properties) ::
               (st.next, st.read c.environment_variables) :: st.mem⟩
      c st.next (Nat.ne_of_gt henv) (Nat.ne_of_gt hprop)
      (by show st.next < st.next + 2; omega)
    have h2 := applyMuts_read_stable ms
      ⟨st.next + 2, (st.next + 1, st.read c.properties) ::
               (st.next, st.read c.environment_variables) :: st.mem⟩
      c (st.next + 1)
      (by intro hcontra; omega) (by intro hcontra; omega)
      (by show st.next + 1 < st.next + 2; omega)
    simp only []
    rw [h1, h2]
  · rw [hfz1, hfz2]
    unfold observeConfig
    simp only []
    have e1 : memRead ((st.next + 1, st.read c.properties) ::
        (st.next, st.read c.environment_variables) :: st.mem) st.next =
        st.read c.environment_variables := by
      rw [memRead_cons_ne _ _ _ _ (by omega), memRead_cons_self]
    have e2 : memRead ((st.next + 1, st.read c.properties) ::
        (st.next, st.read c.environment_variables) :: st.mem) (st.next + 1) =
        st.read c.properties := by
      rw [memRead_cons_self]
    show (memRead _ st.next, _, _, _, memRead _ (st.next + 1)) = _
    rw [e1, e2]

/-- Witness for C7 at a concrete store, configuration and mutation list. -/
theorem freeze_isolates_mutations_witness :
    observeConfig (applyMuts
        (freezeConfig ⟨2, [(0, [("A", "1")]), (1, [])]⟩ ⟨0, none, none, none, 1⟩).2
        ⟨0, none, none, none, 1⟩
        [ConfigMut.envEntry "CLOUDSDK_X" "v", ConfigMut.projectAssign (some "p"),
         ConfigMut.envAssign [("Z", "9")], ConfigMut.envEntry "W" "2"]).1
      (freezeConfig ⟨2, [(0, [("A", "1")]), (1, [])]⟩ ⟨0, none, none, none, 1⟩).1 =
    observeConfig (freezeConfig ⟨2, [(0, [("A", "1")]), (1, [])]⟩
        ⟨0, none, none, none, 1⟩).2
      (freezeConfig ⟨2, [(0, [("A", "1")]), (1, [])]⟩ ⟨0, none, none, none, 1⟩).1 :=
  (freeze_isolates_mutations ⟨2, [(0, [("A", "1")]), (1, [])]⟩ ⟨0, none, none, none, 1⟩
    (by decide) (by decide)
    [ConfigMut.envEntry "CLOUDSDK_X" "v", ConfigMut.projectAssign (some "p"),
     ConfigMut.envAssign [("Z", "9")], ConfigMut.envEntry "W" "2"]).1

/-! ### JSON serialization (`json.dumps(..., sort_keys=True)`, used by
`ImmutableConfig._Key`)

`json.dumps` with its defaults (`ensure_ascii=True`, separators `", "` and
`": "`) escapes `"` and `\`, uses the short escapes for the five named control
characters, `\uXXXX` for the other characters outside `0x20..0x7E`, and a
surrogate pair for code points beyond `0xFFFF`.  A decoder is defined alongside
and proved to invert the encoder, which yields injectivity of the
serialization. -/

def hexDigitChar (n : Nat) : Char :=
  if n < 10 then Char.ofNat (48 + n) else Char.ofNat (87 + n)

def hexVal (c : Char) : Option Nat :=
  if 48 ≤ c.toNat ∧ c.toNat ≤ 57 then some (c.toNat - 48)
  else if 97 ≤ c.toNat ∧ c.toNat ≤ 102 then some (c.toNat - 87)
  else none

theorem hexVal_hexDigitChar (n : Nat) (h : n < 16) :
    hexVal (hexDigitChar n) = some n := by
  interval_cases n <;> decide

/-- Four lowercase hex digits of `n < 0x10000`, as written by `\uXXXX`. -/
def hex4 (n : Nat) : List Char :=
  [hexDigitChar (n / 4096 % 16), hexDigitChar (n / 256 % 16),
   hexDigitChar (n / 16 % 16), hexDigitChar (n % 16)]

/-- Escape of a single character inside a JSON string literal. -/
def escChar (c : Char) : List Char :=
  if c = '"' then ['\\', '"']
  else if c = '\\' then ['\\', '\\']
  else if c = '\n' then ['\\', 'n']
  else if c = '\r' then ['\\', 'r']
  else if c = '\t' then ['\\', 't']
  else if c.toNat = 8 then ['\\', 'b']
  else if c.toNat = 12 then ['\\', 'f']
  else if c.toNat < 32 ∨ (127 ≤ c.toNat ∧ c.toNat < 65536) then
    '\\' :: 'u' :: hex4 c.toNat
  else if 65536 ≤ c.toNat then
    ('\\' :: 'u' :: hex4 (55296 + (c.toNat - 65536) / 1024)) ++
    ('\\' :: 'u' :: hex4 (56320 + (c.toNat - 65536) % 1024))
  else [c]

def escapeList : List Char → List Char
  | [] => []
  | c :: cs => escChar c ++ escapeList cs

/-- Decoder for four hex digits. -/
def parseHex4 : List Char → Option (Nat × List Char)
  | d1 :: d2 :: d3 :: d4 :: rest =>
    match hexVal d1, hexVal d2, hexVal d3, hexVal d4 with
    | some x1, some x2, some x3, some x4 =>
      some (x1 * 4096 + x2 * 256 + x3 * 16 + x4, rest)
    | _, _, _, _ => none
  | _ => none

/-- Decoder for the low-surrogate block `\uXXXX` following a high surrogate
`n`. -/
def parseUniLow (n : Nat) (rest3' : List Char) : Option (Char × List Char) :=
  match parseHex4 rest3' with
  | some (m, rest4) =>
    if 56320 ≤ m ∧ m < 57344 then
      some (Char.ofNat (65536 + (n - 55296) * 1024 + (m - 56320)), rest4)
    else none
  | none => none

/-- Continuation after the first hex block `n` of a `\uXXXX` escape. -/
def parseUniAfterHex (n : Nat) (rest3 : List Char) : Option (Char × List Char) :=
  if 55296 ≤ n ∧ n < 56320 then
    match rest3 with
    | b1 :: b2 :: rest3' =>
      if b1 = '\\' ∧ b2 = 'u' then parseUniLow n rest3' else none
    | _ => none
  else if n < 55296 ∨ 57344 ≤ n then some (Char.ofNat n, rest3)
  else none

/-- Decoder for `\uXXXX` (with a following low surrogate when the first block
is a high surrogate). -/
def parseUnicodeEscape (rest2 : List Char) : Option (Char × List Char) :=
  match parseHex4 rest2 with
  | some (n, rest3) => parseUniAfterHex n rest3
  | none => none

/-- Decoder for one escape sequence: `e` is the character following the
backslash, `rest2` the input after it. -/
def parseEscape (e : Char) (rest2 : List Char) : Option (Char × List Char) :=
  if e = '"' then some ('"', rest2)
  else if e = '\\' then some ('\\', rest2)
  else if e = 'n' then some ('\n', rest2)
  else if e = 'r' then some ('\r', rest2)
  else if e = 't' then some ('\t', rest2)
  else if e = 'b' then some (Char.ofNat 8, rest2)
  else if e = 'f' then some (Char.ofNat 12, rest2)
  else if e = 'u' then parseUnicodeEscape rest2
  else none

theorem charOfNat_toNat (c : Char) : Char.ofNat c.toNat = c := by
  unfold Char.ofNat
  split
  · exact Char.eq_of_val_eq rfl
  · rename_i h
    exact absurd c.valid h

theorem char_valid_nat (c : Char) :
    c.toNat < 55296 ∨ (57343 < c.toNat ∧ c.toNat < 1114112) := c.valid

theorem parseHex4_cons (d1 d2 d3 d4 : Char) (l : List Char) (x1 x2 x3 x4 : Nat)
    (h1 : hexVal d1 = some x1) (h2 : hexVal d2 = some x2)
    (h3 : hexVal d3 = some x3) (h4 : hexVal d4 = some x4) :
    parseHex4 (d1 :: d2 :: d3 :: d4 :: l) =
      some (x1 * 4096 + x2 * 256 + x3 * 16 + x4, l) := by
  show (match hexVal d1, hexVal d2, hexVal d3, hexVal d4 with
    | some x1, some x2, some x3, some x4 =>
      some (x1 * 4096 + x2 * 256 + x3 * 16 + x4, l)
    | _, _, _, _ => none) = some (x1 * 4096 + x2 * 256 + x3 * 16 + x4, l)
  rw [h1, h2, h3, h4]

theorem parseHex4_hex4 (n : Nat) (hn : n < 65536) (l : List Char) :
    parseHex4 (hex4 n ++ l) = some (n, l) := by
  have e1 : n / 4096 % 16 < 16 := Nat.mod_lt _ (by omega)
  have e2 : n / 256 % 16 < 16 := Nat.mod_lt _ (by omega)
  have e3 : n / 16 % 16 < 16 := Nat.mod_lt _ (by omega)
  have e4 : n % 16 < 16 := Nat.mod_lt _ (by omega)
  simp only [hex4, List.cons_append, List.nil_append]
  rw [parseHex4_cons _ _ _ _ _ _ _ _ _ (hexVal_hexDigitChar _ e1)
    (hexVal_hexDigitChar _ e2) (hexVal_hexDigitChar _ e3) (hexVal_hexDigitChar _ e4)]
  have harith : n / 4096 % 16 * 4096 + n / 256 % 16 * 256 + n / 16 % 16 * 16 +
      n % 16 = n := by omega
  rw [harith]

theorem parseUnicodeEscape_single (n : Nat) (hn : n < 65536)
    (hval : n < 55296 ∨ 57344 ≤ n) (l : List Char) :
    parseUnicodeEscape (hex4 n ++ l) = some (Char.ofNat n, l) := by
  unfold parseUnicodeEscape
  rw [parseHex4_hex4 n hn l]
  show parseUniAfterHex n l = _
  unfold parseUniAfterHex
  rw [if_neg (by omega), if_pos (by omega)]

theorem parseUnicodeEscape_pair (v : Nat) (hv : v < 1048576) (l : List Char) :
    parseUnicodeEscape (hex4 (55296 + v / 1024) ++
      ('\\' :: 'u' :: (hex4 (56320 + v % 1024) ++ l))) =
    some (Char.ofNat (65536 + v), l) := by
  have hdiv : v / 1024 < 1024 := by omega
  unfold parseUnicodeEscape
  rw [parseHex4_hex4 _ (by omega)]
  show parseUniAfterHex (55296 + v / 1024) _ = _
  unfold parseUniAfterHex
  rw [if_pos (by omega)]
  show (if ('\\' : Char) = '\\' ∧ ('u' : Char) = 'u' then
      parseUniLow (55296 + v / 1024) (hex4 (56320 + v % 1024) ++ l)
    else none) = _
  rw [if_pos ⟨rfl, rfl⟩]
  unfold parseUniLow
  rw [parseHex4_hex4 _ (by
    have : v % 1024 < 1024 := Nat.mod_lt _ (by omega)
    omega)]
  show (if 56320 ≤ 56320 + v % 1024 ∧ 56320 + v % 1024 < 57344 then
      some (Char.ofNat (65536 + (55296 + v / 1024 - 55296) * 1024 +
        (56320 + v % 1024 - 56320)), l)
    else none) = _
  rw [if_pos (by
    have : v % 1024 < 1024 := Nat.mod_lt _ (by omega)
    omega)]
  have harith : 65536 + (55296 + v / 1024 - 55296) * 1024 +
      (56320 + v % 1024 - 56320) = 65536 + v := by omega
  rw [harith]

/-- Decoder for the body of a JSON string literal, up to and including the
closing quote; returns the decoded characters and the unconsumed input.  The
fuel bounds the number of decoded characters. -/
def parseStrAuxF : Nat → List Char → Option (List Char × List Char)
  | _, [] => none
  | 0, _ => none
  | fuel + 1, c :: rest =>
    if c = '"' then some ([], rest)
    else if c = '\\' then
      match rest with
      | [] => none
      | e :: rest2 =>
        match parseEscape e rest2 with
        | some (ch, rest3) =>
          (parseStrAuxF fuel rest3).map (fun p => (ch :: p.1, p.2))
        | none => none
    else (parseStrAuxF fuel rest).map (fun p => (c :: p.1, p.2))

theorem parseStrAuxF_closing (fuel : Nat) (rest : List Char) :
    parseStrAuxF (fuel + 1) ('"' :: rest) = some ([], rest) := by
  show (if ('"' : Char) = '"' then some ([], rest) else _) = _
  rw [if_pos rfl]

theorem parseStrAuxF_esc (fuel : Nat) (e : Char) (rest2 : List Char) (ch : Char)
    (rest3 : List Char) (hpe : parseEscape e rest2 = some (ch, rest3)) :
    parseStrAuxF (fuel + 1) ('\\' :: e :: rest2) =
      (parseStrAuxF fuel rest3).map (fun p => (ch :: p.1, p.2)) := by
  show (if ('\\' : Char) = '"' then some ([], e :: rest2)
    else if ('\\' : Char) = '\\' then
      match parseEscape e rest2 with
      | some (ch, rest3) =>
        (parseStrAuxF fuel rest3).map (fun p => (ch :: p.1, p.2))
      | none => none
    else (parseStrAuxF fuel (e :: rest2)).map (fun p => ('\\' :: p.1, p.2))) = _
  rw [if_neg (by decide), if_pos rfl, hpe]

theorem parseStrAuxF_plain (fuel : Nat) (c : Char) (rest : List Char)
    (h1 : c ≠ '"') (h2 : c ≠ '\\') :
    parseStrAuxF (fuel + 1) (c :: rest) =
      (parseStrAuxF fuel rest).map (fun p => (c :: p.1, p.2)) := by
  show (if c = '"' then some ([], rest)
    else if c = '\\' then
      match rest with
      | [] => none
      | e :: rest2 =>
        match parseEscape e rest2 with
        | some (ch, rest3) =>
          (parseStrAuxF fuel rest3).map (fun p => (ch :: p.1, p.2))
        | none => none
    else (parseStrAuxF fuel rest).map (fun p => (c :: p.1, p.2))) = _
  rw [if_neg h1, if_neg h2]

theorem parseStrAuxF_escChar_u (c : Char) (X : List Char)
    (h1 : ¬c = '"') (h2 : ¬c = '\\') (h3 : ¬c = '\n') (h4 : ¬c = '\r')
    (h5 : ¬c = '\t') (h6 : ¬c.toNat = 8) (h7 : ¬c.toNat = 12)
    (h8 : c.toNat < 32 ∨ (127 ≤ c.toNat ∧ c.toNat < 65536)) (fuel : Nat) :
    parseStrAuxF (fuel + 1) (escChar c ++ X) =
      (parseStrAuxF fuel X).map (fun p => (c :: p.1, p.2)) := by
  have hesc : escChar c = '\\' :: 'u' :: hex4 c.toNat := by
    unfold escChar
    rw [if_neg h1, if_neg h2, if_neg h3, if_neg h4, if_neg h5, if_neg h6,
      if_neg h7, if_pos h8]
  rw [hesc]
  simp only [List.cons_append]
  rw [parseStrAuxF_esc fuel _ _ (Char.ofNat c.toNat) X (by
    show parseUnicodeEscape _ = _
    exact parseUnicodeEscape_single c.toNat (by omega)
      (by rcases char_valid_nat c with h | h <;> omega) X)]
  rw [charOfNat_toNat]

theorem parseEscape_u_pair (v : Nat) (hv : v < 1048576) (l : List Char) :
    parseEscape 'u' (hex4 (55296 + v / 1024) ++
      ('\\' :: 'u' :: (hex4 (56320 + v % 1024) ++ l))) =
      some (Char.ofNat (65536 + v), l) := by
  show parseUnicodeEscape _ = _
  exact parseUnicodeEscape_pair v hv l

theorem parseStrAuxF_escChar_pair (c : Char) (X : List Char)
    (h1 : ¬c = '"') (h2 : ¬c = '\\') (h3 : ¬c = '\n') (h4 : ¬c = '\r')
    (h5 : ¬c = '\t') (h6 : ¬c.toNat = 8) (h7 : ¬c.toNat = 12)
    (h8 : ¬(c.toNat < 32 ∨ (127 ≤ c.toNat ∧ c.toNat < 65536)))
    (h9 : 65536 ≤ c.toNat) (fuel : Nat) :
    parseStrAuxF (fuel + 1) (escChar c ++ X) =
      (parseStrAuxF fuel X).map (fun p => (c :: p.1, p.2)) := by
  have hesc : escChar c =
      ('\\' :: 'u' :: hex4 (55296 + (c.toNat - 65536) / 1024)) ++
      ('\\' :: 'u' :: hex4 (56320 + (c.toNat - 65536) % 1024)) := by
    unfold escChar
    rw [if_neg h1, if_neg h2, if_neg h3, if_neg h4, if_neg h5, if_neg h6,
      if_neg h7, if_neg h8, if_pos h9]
  rw [hesc]
  have hv : c.toNat - 65536 < 1048576 := by
    rcases char_valid_nat c with h | h <;> omega
  simp only [List.cons_append, List.append_assoc]
  rw [parseStrAuxF_esc fuel _ _ (Char.ofNat (65536 + (c.toNat - 65536))) X
    (parseEscape_u_pair (c.toNat - 65536) hv X)]
  have heq : 65536 + (c.toNat - 65536) = c.toNat := by omega
  rw [heq, charOfNat_toNat]

theorem parseStrAuxF_escChar_b (X : List Char) (fuel : Nat) :
    parseStrAuxF (fuel + 1) (escChar (Char.ofNat 8) ++ X) =
      (parseStrAuxF fuel X).map (fun p => (Char.ofNat 8 :: p.1, p.2)) :=
  parseStrAuxF_esc fuel _ _ _ _ rfl

theorem parseStrAuxF_escChar_f (X : List Char) (fuel : Nat) :
    parseStrAuxF (fuel + 1) (escChar (Char.ofNat 12) ++ X) =
      (parseStrAuxF fuel X).map (fun p => (Char.ofNat 12 :: p.1, p.2)) :=
  parseStrAuxF_esc fuel _ _ _ _ rfl

/-- Decoding one escaped character: the parser consumes exactly `escChar c`
and produces `c`. -/
theorem parseStrAuxF_escChar (fuel : Nat) (c : Char) (X : List Char) :
    parseStrAuxF (fuel + 1) (escChar c ++ X) =
      (parseStrAuxF fuel X).map (fun p => (c :: p.1, p.2)) := by
  by_cases h1 : c = '"'
  · subst h1
    exact parseStrAuxF_esc fuel _ _ _ _ rfl
  by_cases h2 : c = '\\'
  · subst h2
    exact parseStrAuxF_esc fuel _ _ _ _ rfl
  by_cases h3 : c = '\n'
  · subst h3
    exact parseStrAuxF_esc fuel _ _ _ _ rfl
  by_cases h4 : c = '\r'
  · subst h4
    exact parseStrAuxF_esc fuel _ _ _ _ rfl
  by_cases h5 : c = '\t'
  · subst h5
    exact parseStrAuxF_esc fuel _ _ _ _ rfl
  by_cases h6 : c.toNat = 8
  · have hc : c = Char.ofNat 8 := by rw [← charOfNat_toNat c, h6]
    subst hc
    exact parseStrAuxF_escChar_b X fuel
  by_cases h7 : c.toNat = 12
  · have hc : c = Char.ofNat 12 := by rw [← charOfNat_toNat c, h7]
    subst hc
    exact parseStrAuxF_escChar_f X fuel
  by_cases h8 : c.toNat < 32 ∨ (127 ≤ c.toNat ∧ c.toNat < 65536)
  · exact parseStrAuxF_escChar_u c X h1 h2 h3 h4 h5 h6 h7 h8 fuel
  by_cases h9 : 65536 ≤ c.toNat
  · exact parseStrAuxF_escChar_pair c X h1 h2 h3 h4 h5 h6 h7 h8 h9 fuel
  · have hesc : escChar c = [c] := by
      unfold escChar
      rw [if_neg h1, if_neg h2, if_neg h3, if_neg h4, if_neg h5, if_neg h6,
        if_neg h7, if_neg h8, if_neg h9]
    rw [hesc]
    exact parseStrAuxF_plain fuel c X h1 h2

/-- Round trip for JSON string bodies: parsing the escape of `s` followed by
the closing quote yields `s`, for any fuel above the length of `s`. -/
theorem parseStrAuxF_escape (s : List Char) :
    ∀ (fuel : Nat) (rest : List Char), s.length < fuel →
      parseStrAuxF fuel (escapeList s ++ '"' :: rest) = some (s, rest) := by
  induction s with
  | nil =>
    intro fuel rest hf
    match fuel, hf with
    | fuel + 1, _ => exact parseStrAuxF_closing fuel rest
  | cons c cs ih =>
    intro fuel rest hf
    match fuel, hf with
    | fuel + 1, hf =>
      show parseStrAuxF (fuel + 1) ((escChar c ++ escapeList cs) ++ '"' :: rest) = _
      rw [List.append_assoc, parseStrAuxF_escChar,
        ih fuel rest (by simp only [List.length_cons] at hf; omega)]
      rfl

/-! ### JSON serialization of configuration values -/

/-- JSON string literal for `s`. -/
def quoteStr (s : String) : List Char :=
  '"' :: (escapeList s.data ++ ['"'])

/-- One `"key": "value"` pair of a string dictionary. -/
def entryEnc (kv : String × String) : List Char :=
  quoteStr kv.1 ++ (':' :: ' ' :: quoteStr kv.2)

/-- Separator-prefixed encodings of every entry after the first. -/
def entriesEncRest : List (String × String) → List Char
  | [] => []
  | kv :: rest => ',' :: ' ' :: (entryEnc kv ++ entriesEncRest rest)

/-- Encoding of a string dictionary's entries followed by the closing brace. -/
def entriesEncAll : List (String × String) → List Char
  | [] => ['}']
  | kv :: rest => entryEnc kv ++ (entriesEncRest rest ++ ['}'])

/-- Sorted-key entry order (`json.dumps(..., sort_keys=True)`). -/
def sortEntries (es : List (String × String)) : List (String × String) :=
  List.insertionSort (fun a b => a.1 ≤ b.1) es

/-- JSON encoding of a configuration value (`None`, a string, or a flat
string dictionary with sorted keys). -/
def PValue.enc : PValue → List Char
  | PValue.null => ['n', 'u', 'l', 'l']
  | PValue.str s => quoteStr s
  | PValue.dict es => '{' :: entriesEncAll (sortEntries es)

/-- Decoder for a JSON string literal including its quotes. -/
def parseString (l : List Char) : Option (String × List Char) :=
  match l with
  | '"' :: r => (parseStrAuxF r.length r).map (fun p => (String.mk p.1, p.2))
  | _ => none

theorem escapeList_length_ge (s : List Char) : s.length ≤ (escapeList s).length := by
  induction s with
  | nil => exact Nat.le_refl _
  | cons c cs ih =>
    show (c :: cs).length ≤ (escChar c ++ escapeList cs).length
    rw [List.length_append, List.length_cons]
    have hc : 1 ≤ (escChar c).length := by
      unfold escChar
      repeat' split
      all_goals simp [hex4]
    omega

theorem parseStrAuxF_mono (s : List Char) :
    ∀ (f1 f2 : Nat) (r : List Char), s.length < f1 → s.length < f2 →
      parseStrAuxF f1 (escapeList s ++ '"' :: r) =
        parseStrAuxF f2 (escapeList s ++ '"' :: r) := by
  intro f1 f2 r h1 h2
  rw [parseStrAuxF_escape s f1 r h1, parseStrAuxF_escape s f2 r h2]

/-- Round trip for quoted strings. -/
theorem parseString_quote (s : String) (rest : List Char) :
    parseString (quoteStr s ++ rest) = some (s, rest) := by
  show parseString ('"' :: ((escapeList s.data ++ ['"']) ++ rest)) = _
  rw [List.append_assoc]
  show (parseStrAuxF (escapeList s.data ++ ('"' :: rest)).length
      (escapeList s.data ++ ('"' :: rest))).map (fun p => (String.mk p.1, p.2)) = _
  rw [parseStrAuxF_escape s.data _ rest (by
    rw [List.length_append, List.length_cons]
    have := escapeList_length_ge s.data
    omega)]
  rfl

/-- Decoder for one `"key": "value"` pair. -/
def parseEntryTail (l : List Char) : Option ((String × String) × List Char) :=
  match parseString l with
  | some (k, rest) =>
    match rest with
    | ':' :: ' ' :: rest2 => (parseString rest2).map (fun p => ((k, p.1), p.2))
    | _ => none
  | none => none

theorem parseEntryTail_enc (kv : String × String) (X : List Char) :
    parseEntryTail (entryEnc kv ++ X) = some (kv, X) := by
  show parseEntryTail ((quoteStr kv.1 ++ (':' :: ' ' :: quoteStr kv.2)) ++ X) = _
  rw [List.append_assoc]
  unfold parseEntryTail
  rw [parseString_quote kv.1 ((':' :: ' ' :: quoteStr kv.2) ++ X)]
  show (parseString (quoteStr kv.2 ++ X)).map (fun p => ((kv.1, p.1), p.2)) = _
  rw [parseString_quote kv.2 X]
  rfl

/-- One step of the dictionary-entry loop: one `"k": "v"` pair followed by
either a separator and the continuation or the closing brace. -/
def parseEntriesStep
    (recur : List Char → Option (List (String × String) × List Char))
    (l : List Char) : Option (List (String × String) × List Char) :=
  match parseEntryTail l with
  | some (kv, rest) =>
    match rest with
    | ',' :: ' ' :: rest2 => (recur rest2).map (fun p => (kv :: p.1, p.2))
    | '}' :: rest2 => some ([kv], rest2)
    | _ => none
  | none => none

/-- Decoder for the inside of a dictionary (after the opening brace), closing
brace included; the fuel bounds the number of entries. -/
def parseEntriesF (fuel : Nat) (l : List Char) :
    Option (List (String × String) × List Char) :=
  if l.head? = some '}' then some ([], l.tail)
  else
    match fuel with
    | 0 => none
    | fuel + 1 => parseEntriesStep (parseEntriesF fuel) l

theorem parseEntriesF_brace (fuel : Nat) (rest : List Char) :
    parseEntriesF fuel ('}' :: rest) = some ([], rest) := by
  unfold parseEntriesF
  rw [if_pos (show ('}' :: rest).head? = some '}' from rfl)]
  rfl

theorem parseEntriesF_step (fuel : Nat) (l : List Char)
    (h : ¬l.head? = some '}') :
    parseEntriesF (fuel + 1) l = parseEntriesStep (parseEntriesF fuel) l := by
  unfold parseEntriesF
  rw [if_neg h]

theorem entryEnc_append_head (kv : String × String) (Y : List Char) :
    (entryEnc kv ++ Y).head? = some '"' := by
  show ((quoteStr kv.1 ++ (':' :: ' ' :: quoteStr kv.2)) ++ Y).head? = _
  show ((('"' :: (escapeList kv.1.data ++ ['"'])) ++ (':' :: ' ' :: quoteStr kv.2)) ++ Y).head? = _
  rfl

theorem parseEntriesStep_enc
    (recur : List Char → Option (List (String × String) × List Char))
    (kv : String × String) (Y : List Char) :
    parseEntriesStep recur (entryEnc kv ++ Y) =
      (match Y with
      | ',' :: ' ' :: rest2 => (recur rest2).map (fun p => (kv :: p.1, p.2))
      | '}' :: rest2 => some ([kv], rest2)
      | _ => none) := by
  unfold parseEntriesStep
  rw [parseEntryTail_enc]

theorem parseEntriesF_enc (es : List (String × String)) :
    ∀ (fuel : Nat) (rest : List Char), es.length ≤ fuel →
      parseEntriesF fuel (entriesEncAll es ++ rest) = some (es, rest) := by
  induction es with
  | nil =>
    intro fuel rest _
    exact parseEntriesF_brace fuel rest
  | cons kv tail ih =>
    intro fuel rest hf
    match fuel, hf with
    | fuel + 1, hf =>
      show parseEntriesF (fuel + 1)
        ((entryEnc kv ++ (entriesEncRest tail ++ ['}'])) ++ rest) = _
      rw [List.append_assoc]
      have hbody : (entriesEncRest tail ++ ['}']) ++ rest =
          entriesEncRest tail ++ ('}' :: rest) := by
        rw [List.append_assoc]
        rfl
      rw [hbody]
      rw [parseEntriesF_step fuel _ (by
        rw [entryEnc_append_head]
        decide)]
      rw [parseEntriesStep_enc]
      cases tail with
      | nil => rfl
      | cons kv2 t2 =>
        show (parseEntriesF fuel
            ((entryEnc kv2 ++ entriesEncRest t2) ++ ('}' :: rest))).map
          (fun p => (kv :: p.1, p.2)) = _
        have hconv : (entryEnc kv2 ++ entriesEncRest t2) ++ ('}' :: rest) =
            entriesEncAll (kv2 :: t2) ++ rest := by
          show _ = (entryEnc kv2 ++ (entriesEncRest t2 ++ ['}'])) ++ rest
          simp [List.append_assoc]
        rw [hconv, ih fuel rest (by
          simp only [List.length_cons] at hf ⊢
          omega)]
        rfl

/-- Decoder for a configuration value: `null`, a quoted string, or a flat
string dictionary. -/
def parseValue (l : List Char) : Option (PValue × List Char) :=
  match l with
  | 'n' :: 'u' :: 'l' :: 'l' :: rest => some (PValue.null, rest)
  | '"' :: _ => (parseString l).map (fun p => (PValue.str p.1, p.2))
  | '{' :: rest =>
    (parseEntriesF rest.length rest).map (fun p => (PValue.dict p.1, p.2))
  | _ => none

/-- The canonical form a value assumes after a serialise/parse round trip:
dictionary entries are returned in sorted-key order. -/
def canonValue : PValue → PValue
  | PValue.dict es => PValue.dict (sortEntries es)
  | v => v

theorem entriesEncRest_length_ge (es : List (String × String)) :
    es.length ≤ (entriesEncRest es).length := by
  induction es with
  | nil => exact Nat.le_refl _
  | cons kv rest ih =>
    show (kv :: rest).length ≤
      (',' :: ' ' :: (entryEnc kv ++ entriesEncRest rest)).length
    simp only [List.length_cons, List.length_append]
    omega

theorem entriesEncAll_length_ge (es : List (String × String)) :
    es.length ≤ (entriesEncAll es).length := by
  cases es with
  | nil => exact Nat.zero_le _
  | cons kv rest =>
    show (kv :: rest).length ≤
      (entryEnc kv ++ (entriesEncRest rest ++ ['}'])).length
    simp only [List.length_cons, List.length_append, List.length_singleton]
    have := entriesEncRest_length_ge rest
    omega

/-- Round trip for configuration values. -/
theorem parseValue_enc (v : PValue) (rest : List Char) :
    parseValue (PValue.enc v ++ rest) = some (canonValue v, rest) := by
  cases v with
  | null => rfl
  | str s =>
    show parseValue ('"' :: ((escapeList s.data ++ ['"']) ++ rest)) = _
    show (parseString ('"' :: ((escapeList s.data ++ ['"']) ++ rest))).map
      (fun p => (PValue.str p.1, p.2)) = _
    rw [show ('"' :: ((escapeList s.data ++ ['"']) ++ rest) : List Char)
        = quoteStr s ++ rest from rfl]
    rw [parseString_quote]
    rfl
  | dict es =>
    show parseValue ('{' :: (entriesEncAll (sortEntries es) ++ rest)) = _
    show (parseEntriesF (entriesEncAll (sortEntries es) ++ rest).length
        (entriesEncAll (sortEntries es) ++ rest)).map
      (fun p => (PValue.dict p.1, p.2)) = _
    rw [parseEntriesF_enc (sortEntries es) _ rest (by
      rw [List.length_append]
      have := entriesEncAll_length_ge (sortEntries es)
      omega)]
    rfl

/-- One `"key": value` pair of the top-level configuration dictionary. -/
def topEntryEnc (kv : String × PValue) : List Char :=
  quoteStr kv.1 ++ (':' :: ' ' :: PValue.enc kv.2)

/-- Separator-prefixed encodings of every top-level entry after the first. -/
def topEntriesEncRest : List (String × PValue) → List Char
  | [] => []
  | kv :: rest => ',' :: ' ' :: (topEntryEnc kv ++ topEntriesEncRest rest)

/-- Encoding of the top-level entries followed by the closing brace. -/
def topEntriesEncAll : List (String × PValue) → List Char
  | [] => ['}']
  | kv :: rest => topEntryEnc kv ++ (topEntriesEncRest rest ++ ['}'])

/-- Sorted-key order of the top-level configuration dictionary. -/
def sortTopEntries (d : List (String × PValue)) : List (String × PValue) :=
  List.insertionSort (fun a b => a.1 ≤ b.1) d

/-- `json.dumps(self.__dict__, sort_keys=True)` (`_config.py` line 105):
the sorted-key JSON serialisation of a configuration dictionary. -/
def serializeConfig (d : List (String × PValue)) : List Char :=
  '{' :: topEntriesEncAll (sortTopEntries d)

/-- Canonical form of a configuration dictionary after a round trip. -/
def canonTop (d : List (String × PValue)) : List (String × PValue) :=
  (sortTopEntries d).map (fun kv => (kv.1, canonValue kv.2))

/-- Decoder for one top-level `"key": value` pair. -/
def parseTopEntryTail (l : List Char) :
    Option ((String × PValue) × List Char) :=
  match parseString l with
  | some (k, rest) =>
    match rest with
    | ':' :: ' ' :: rest2 => (parseValue rest2).map (fun p => ((k, p.1), p.2))
    | _ => none
  | none => none

theorem parseTopEntryTail_enc (kv : String × PValue) (X : List Char) :
    parseTopEntryTail (topEntryEnc kv ++ X) =
      some ((kv.1, canonValue kv.2), X) := by
  show parseTopEntryTail
    ((quoteStr kv.1 ++ (':' :: ' ' :: PValue.enc kv.2)) ++ X) = _
  rw [List.append_assoc]
  unfold parseTopEntryTail
  rw [parseString_quote kv.1 ((':' :: ' ' :: PValue.enc kv.2) ++ X)]
  show (parseValue (PValue.enc kv.2 ++ X)).map (fun p => ((kv.1, p.1), p.2)) = _
  rw [parseValue_enc]
  rfl

/-- One step of the top-level entry loop. -/
def parseTopEntriesStep
    (recur : List Char → Option (List (String × PValue) × List Char))
    (l : List Char) : Option (List (String × PValue) × List Char) :=
  match parseTopEntryTail l with
  | some (kv, rest) =>
    match rest with
    | ',' :: ' ' :: rest2 => (recur rest2).map (fun p => (kv :: p.1, p.2))
    | '}' :: rest2 => some ([kv], rest2)
    | _ => none
  | none => none

/-- Decoder for the inside of the top-level dictionary. -/
def parseTopEntriesF (fuel : Nat) (l : List Char) :
    Option (List (String × PValue) × List Char) :=
  if l.head? = some '}' then some ([], l.tail)
  else
    match fuel with
    | 0 => none
    | fuel + 1 => parseTopEntriesStep (parseTopEntriesF fuel) l

/-- Decoder for a whole serialised configuration dictionary. -/
def parseConfig (l : List Char) :
    Option (List (String × PValue) × List Char) :=
  match l with
  | '{' :: rest => parseTopEntriesF rest.length rest
  | _ => none

theorem parseTopEntriesF_brace (fuel : Nat) (rest : List Char) :
    parseTopEntriesF fuel ('}' :: rest) = some ([], rest) := by
  unfold parseTopEntriesF
  rw [if_pos (show ('}' :: rest).head? = some '}' from rfl)]
  rfl

theorem parseTopEntriesF_step (fuel : Nat) (l : List Char)
    (h : ¬l.head? = some '}') :
    parseTopEntriesF (fuel + 1) l =
      parseTopEntriesStep (parseTopEntriesF fuel) l := by
  unfold parseTopEntriesF
  rw [if_neg h]

theorem topEntryEnc_append_head (kv : String × PValue) (Y : List Char) :
    (topEntryEnc kv ++ Y).head? = some '"' := by
  show ((quoteStr kv.1 ++ (':' :: ' ' :: PValue.enc kv.2)) ++ Y).head? = _
  show ((('"' :: (escapeList kv.1.data ++ ['"'])) ++
    (':' :: ' ' :: PValue.enc kv.2)) ++ Y).head? = _
  rfl

theorem parseTopEntriesStep_enc
    (recur : List Char → Option (List (String × PValue) × List Char))
    (kv : String × PValue) (Y : List Char) :
    parseTopEntriesStep recur (topEntryEnc kv ++ Y) =
      (match Y with
      | ',' :: ' ' :: rest2 =>
        (recur rest2).map (fun p => ((kv.1, canonValue kv.2) :: p.1, p.2))
      | '}' :: rest2 => some ([(kv.1, canonValue kv.2)], rest2)
      | _ => none) := by
  unfold parseTopEntriesStep
  rw [parseTopEntryTail_enc]

theorem topEntriesEncRest_length_ge (d : List (String × PValue)) :
    d.length ≤ (topEntriesEncRest d).length := by
  induction d with
  | nil => exact Nat.le_refl _
  | cons kv rest ih =>
    show (kv :: rest).length ≤
      (',' :: ' ' :: (topEntryEnc kv ++ topEntriesEncRest rest)).length
    simp only [List.length_cons, List.length_append]
    omega

theorem topEntriesEncAll_length_ge (d : List (String × PValue)) :
    d.length ≤ (topEntriesEncAll d).length := by
  cases d with
  | nil => exact Nat.zero_le _
  | cons kv rest =>
    show (kv :: rest).length ≤
      (topEntryEnc kv ++ (topEntriesEncRest rest ++ ['}'])).length
    simp only [List.length_cons, List.length_append, List.length_singleton]
    have := topEntriesEncRest_length_ge rest
    omega

theorem parseTopEntriesF_enc (d : List (String × PValue)) :
    ∀ (fuel : Nat) (rest : List Char), d.length ≤ fuel →
      parseTopEntriesF fuel (topEntriesEncAll d ++ rest) =
        some (d.map (fun kv => (kv.1, canonValue kv.2)), rest) := by
  induction d with
  | nil =>
    intro fuel rest _
    exact parseTopEntriesF_brace fuel rest
  | cons kv tail ih =>
    intro fuel rest hf
    match fuel, hf with
    | fuel + 1, hf =>
      show parseTopEntriesF (fuel + 1)
        ((topEntryEnc kv ++ (topEntriesEncRest tail ++ ['}'])) ++ rest) = _
      rw [List.append_assoc]
      have hbody : (topEntriesEncRest tail ++ ['}']) ++ rest =
          topEntriesEncRest tail ++ ('}' :: rest) := by
        rw [List.append_assoc]
        rfl
      rw [hbody]
      rw [parseTopEntriesF_step fuel _ (by
        rw [topEntryEnc_append_head]
        decide)]
      rw [parseTopEntriesStep_enc]
      cases tail with
      | nil => rfl
      | cons kv2 t2 =>
        show (parseTopEntriesF fuel
            ((topEntryEnc kv2 ++ topEntriesEncRest t2) ++ ('}' :: rest))).map
          (fun p => ((kv.1, canonValue kv.2) :: p.1, p.2)) = _
        have hconv : (topEntryEnc kv2 ++ topEntriesEncRest t2) ++ ('}' :: rest) =
            topEntriesEncAll (kv2 :: t2) ++ rest := by
          show _ = (topEntryEnc kv2 ++ (topEntriesEncRest t2 ++ ['}'])) ++ rest
          simp [List.append_assoc]
        rw [hconv, ih fuel rest (by
          simp only [List.length_cons] at hf ⊢
          omega)]
        rfl

/-- Round trip for whole configuration dictionaries. -/
theorem parseConfig_enc (d : List (String × PValue)) (rest : List Char) :
    parseConfig (serializeConfig d ++ rest) = some (canonTop d, rest) := by
  show parseTopEntriesF (topEntriesEncAll (sortTopEntries d) ++ rest).length
    (topEntriesEncAll (sortTopEntries d) ++ rest) = _
  rw [parseTopEntriesF_enc (sortTopEntries d) _ rest (by
    rw [List.length_append]
    have := topEntriesEncAll_length_ge (sortTopEntries d)
    omega)]
  rfl

/-- The sorted-key serialisation determines the canonical dictionary. -/
theorem serializeConfig_canon (d1 d2 : List (String × PValue))
    (h : serializeConfig d1 = serializeConfig d2) :
    canonTop d1 = canonTop d2 := by
  have h1 := parseConfig_enc d1 []
  have h2 := parseConfig_enc d2 []
  rw [h] at h1
  rw [h2] at h1
  injection h1 with h3
  exact (congrArg Prod.fst h3).symm

theorem sortEntries_perm_eq (l1 l2 : List (String × String))
    (p : l1.Perm l2) (nd : (l1.map Prod.fst).Nodup) :
    sortEntries l1 = sortEntries l2 := by
  haveI ht : IsTotal (String × String) (fun a b => a.1 ≤ b.1) :=
    ⟨fun a b => le_total a.1 b.1⟩
  haveI htr : IsTrans (String × String) (fun a b => a.1 ≤ b.1) :=
    ⟨fun a b c hab hbc => le_trans hab hbc⟩
  haveI ha : IsAntisymm (String × String) (fun a b => a.1 < b.1) :=
    ⟨fun a b hab hba => absurd hba (lt_asymm hab)⟩
  have hperm : (List.insertionSort (fun a b => a.1 ≤ b.1) l1).Perm
      (List.insertionSort (fun a b => a.1 ≤ b.1) l2) :=
    (List.perm_insertionSort _ l1).trans
      (p.trans (List.perm_insertionSort _ l2).symm)
  have hs1 := List.sorted_insertionSort (fun a b : String × String => a.1 ≤ b.1) l1
  have hs2 := List.sorted_insertionSort (fun a b : String × String => a.1 ≤ b.1) l2
  have nd2 : (l2.map Prod.fst).Nodup := (p.map Prod.fst).nodup_iff.mp nd
  have hn1 : ((List.insertionSort (fun a b => a.1 ≤ b.1) l1).map Prod.fst).Nodup :=
    ((List.perm_insertionSort _ l1).map Prod.fst).nodup_iff.mpr nd
  have hn2 : ((List.insertionSort (fun a b => a.1 ≤ b.1) l2).map Prod.fst).Nodup :=
    ((List.perm_insertionSort _ l2).map Prod.fst).nodup_iff.mpr nd2
  have hp1 : List.Pairwise (fun a b : String × String => a.1 < b.1)
      (List.insertionSort (fun a b => a.1 ≤ b.1) l1) :=
    (hs1.and (List.pairwise_map.mp hn1)).imp
      (fun hab => lt_of_le_of_ne hab.1 hab.2)
  have hp2 : List.Pairwise (fun a b : String × String => a.1 < b.1)
      (List.insertionSort (fun a b => a.1 ≤ b.1) l2) :=
    (hs2.and (List.pairwise_map.mp hn2)).imp
      (fun hab => lt_of_le_of_ne hab.1 hab.2)
  exact List.eq_of_perm_of_sorted hperm hp1 hp2

theorem sortTopEntries_perm_eq (l1 l2 : List (String × PValue))
    (p : l1.Perm l2) (nd : (l1.map Prod.fst).Nodup) :
    sortTopEntries l1 = sortTopEntries l2 := by
  haveI ht : IsTotal (String × PValue) (fun a b => a.1 ≤ b.1) :=
    ⟨fun a b => le_total a.1 b.1⟩
  haveI htr : IsTrans (String × PValue) (fun a b => a.1 ≤ b.1) :=
    ⟨fun a b c hab hbc => le_trans hab hbc⟩
  haveI ha : IsAntisymm (String × PValue) (fun a b => a.1 < b.1) :=
    ⟨fun a b hab hba => absurd hba (lt_asymm hab)⟩
  have hperm : (List.insertionSort (fun a b => a.1 ≤ b.1) l1).Perm
      (List.insertionSort (fun a b => a.1 ≤ b.1) l2) :=
    (List.perm_insertionSort _ l1).trans
      (p.trans (List.perm_insertionSort _ l2).symm)
  have hs1 := List.sorted_insertionSort (fun a b : String × PValue => a.1 ≤ b.1) l1
  have hs2 := List.sorted_insertionSort (fun a b : String × PValue => a.1 ≤ b.1) l2
  have nd2 : (l2.map Prod.fst).Nodup := (p.map Prod.fst).nodup_iff.mp nd
  have hn1 : ((List.insertionSort (fun a b => a.1 ≤ b.1) l1).map Prod.fst).Nodup :=
    ((List.perm_insertionSort _ l1).map Prod.fst).nodup_iff.mpr nd
  have hn2 : ((List.insertionSort (fun a b => a.1 ≤ b.1) l2).map Prod.fst).Nodup :=
    ((List.perm_insertionSort _ l2).map Prod.fst).nodup_iff.mpr nd2
  have hp1 : List.Pairwise (fun a b : String × PValue => a.1 < b.1)
      (List.insertionSort (fun a b => a.1 ≤ b.1) l1) :=
    (hs1.and (List.pairwise_map.mp hn1)).imp
      (fun hab => lt_of_le_of_ne hab.1 hab.2)
  have hp2 : List.Pairwise (fun a b : String × PValue => a.1 < b.1)
      (List.insertionSort (fun a b => a.1 ≤ b.1) l2) :=
    (hs2.and (List.pairwise_map.mp hn2)).imp
      (fun hab => lt_of_le_of_ne hab.1 hab.2)
  exact List.eq_of_perm_of_sorted hperm hp1 hp2

/-- Entry congruence: equal keys and values with equal canonical forms. -/
def entRel (a b : String × PValue) : Prop :=
  a.1 = b.1 ∧ canonValue a.2 = canonValue b.2

theorem enc_of_canon_eq (v1 v2 : PValue) (h : canonValue v1 = canonValue v2) :
    PValue.enc v1 = PValue.enc v2 := by
  cases v1 with
  | null => cases v2 with
    | null => rfl
    | str s => exact absurd h (by simp [canonValue])
    | dict es => exact absurd h (by simp [canonValue])
  | str s1 => cases v2 with
    | null => exact absurd h (by simp [canonValue])
    | str s2 =>
      have : s1 = s2 := by
        have := h
        simp only [canonValue] at this
        exact PValue.str.inj this
      rw [this]
    | dict es => exact absurd h (by simp [canonValue])
  | dict es1 => cases v2 with
    | null => exact absurd h (by simp [canonValue])
    | str s => exact absurd h (by simp [canonValue])
    | dict es2 =>
      have hse : sortEntries es1 = sortEntries es2 := by
        have := h
        simp only [canonValue] at this
        exact PValue.dict.inj this
      show '{' :: entriesEncAll (sortEntries es1) = '{' :: entriesEncAll (sortEntries es2)
      rw [hse]

theorem orderedInsert_entRel (a b : String × PValue) (hab : entRel a b) :
    ∀ {l1 l2 : List (String × PValue)}, List.Forall₂ entRel l1 l2 →
      List.Forall₂ entRel
        (List.orderedInsert (fun a b => a.1 ≤ b.1) a l1)
        (List.orderedInsert (fun a b => a.1 ≤ b.1) b l2) := by
  intro l1 l2 hf
  induction hf with
  | nil => exact List.Forall₂.cons hab List.Forall₂.nil
  | cons hxy hl ih =>
    rename_i x y t1 t2
    show List.Forall₂ entRel
      (if a.1 ≤ x.1 then a :: x :: t1 else x :: List.orderedInsert _ a t1)
      (if b.1 ≤ y.1 then b :: y :: t2 else y :: List.orderedInsert _ b t2)
    rw [hab.1, hxy.1]
    by_cases hc : b.1 ≤ y.1
    · rw [if_pos hc, if_pos hc]
      exact List.Forall₂.cons hab (List.Forall₂.cons hxy hl)
    · rw [if_neg hc, if_neg hc]
      exact List.Forall₂.cons hxy ih

theorem insertionSort_entRel {l1 l2 : List (String × PValue)}
    (hf : List.Forall₂ entRel l1 l2) :
    List.Forall₂ entRel (sortTopEntries l1) (sortTopEntries l2) := by
  induction hf with
  | nil => exact List.Forall₂.nil
  | cons hxy hl ih =>
    exact orderedInsert_entRel _ _ hxy ih

theorem topEntriesEncRest_entRel :
    ∀ {l1 l2 : List (String × PValue)}, List.Forall₂ entRel l1 l2 →
      topEntriesEncRest l1 = topEntriesEncRest l2 := by
  intro l1 l2 hf
  induction hf with
  | nil => rfl
  | cons hxy hl ih =>
    rename_i x y t1 t2
    show ',' :: ' ' :: (topEntryEnc x ++ topEntriesEncRest t1) = _
    have hx : topEntryEnc x = topEntryEnc y := by
      show quoteStr x.1 ++ (':' :: ' ' :: PValue.enc x.2) = _
      rw [hxy.1, enc_of_canon_eq _ _ hxy.2]
      rfl
    rw [hx, ih]
    rfl

theorem topEntriesEncAll_entRel {l1 l2 : List (String × PValue)}
    (hf : List.Forall₂ entRel l1 l2) :
    topEntriesEncAll l1 = topEntriesEncAll l2 := by
  cases hf with
  | nil => rfl
  | cons hxy hl =>
    rename_i x y t1 t2
    show topEntryEnc x ++ (topEntriesEncRest t1 ++ ['}']) = _
    have hx : topEntryEnc x = topEntryEnc y := by
      show quoteStr x.1 ++ (':' :: ' ' :: PValue.enc x.2) = _
      rw [hxy.1, enc_of_canon_eq _ _ hxy.2]
      rfl
    rw [hx, topEntriesEncRest_entRel hl]
    rfl

theorem serializeConfig_entRel {l1 l2 : List (String × PValue)}
    (hf : List.Forall₂ entRel l1 l2) :
    serializeConfig l1 = serializeConfig l2 := by
  show '{' :: topEntriesEncAll (sortTopEntries l1) = _
  rw [topEntriesEncAll_entRel (insertionSort_entRel hf)]
  rfl

theorem lookupP_map_canon (l : List (String × PValue)) (k : String) :
    lookupP (l.map (fun kv => (kv.1, canonValue kv.2))) k =
      (lookupP l k).map canonValue := by
  induction l with
  | nil => rfl
  | cons kv rest ih =>
    show (if kv.1 == k then some (canonValue kv.2)
        else lookupP (rest.map (fun kv => (kv.1, canonValue kv.2))) k) = _
    show _ = (if kv.1 == k then some kv.2 else lookupP rest k).map canonValue
    by_cases h : kv.1 == k
    · rw [if_pos h, if_pos h]
      rfl
    · rw [if_neg h, if_neg h, ih]

theorem lookupP_perm (k : String) {l1 l2 : List (String × PValue)}
    (p : l1.Perm l2) : (l1.map Prod.fst).Nodup →
      lookupP l1 k = lookupP l2 k := by
  induction p with
  | nil => intro _; rfl
  | cons x p ih =>
    intro nd
    rename_i t1 t2
    show (if x.1 == k then some x.2 else lookupP t1 k)
      = (if x.1 == k then some x.2 else lookupP t2 k)
    by_cases h : x.1 == k
    · rw [if_pos h, if_pos h]
    · rw [if_neg h, if_neg h]
      exact ih (List.nodup_cons.mp nd).2
  | swap x y l =>
    intro nd
    have hxy : ¬(y.1 = x.1) := by
      have hm := (List.nodup_cons.mp nd).1
      intro he
      exact hm (by rw [he]; exact List.mem_cons_self _ _)
    show (if y.1 == k then some y.2
        else if x.1 == k then some x.2 else lookupP l k)
      = (if x.1 == k then some x.2
        else if y.1 == k then some y.2 else lookupP l k)
    by_cases h1 : y.1 == k
    · by_cases h2 : x.1 == k
      · exact absurd ((eq_of_beq h1).trans (eq_of_beq h2).symm) hxy
      · rw [if_pos h1, if_neg h2, if_pos h1]
    · by_cases h2 : x.1 == k
      · rw [if_neg h1, if_pos h2, if_pos h2]
      · rw [if_neg h1, if_neg h2, if_neg h2, if_neg h1]
  | trans p1 p2 ih1 ih2 =>
    intro nd
    exact (ih1 nd).trans (ih2 ((p1.map Prod.fst).nodup_iff.mp nd))

/-- `ImmutableConfig` (`_config.py` lines 65-113): equality and hashing go
through the sorted-key JSON serialisation `_Key`. -/
structure ImmutableConfig where
  dict : List (String × PValue)
deriving DecidableEq

/-- `_Key` (`_config.py` line 105): `json.dumps(self.__dict__, sort_keys=True)`. -/
def ImmutableConfig.key (c : ImmutableConfig) : String :=
  String.mk (serializeConfig c.dict)

/-- `__eq__` (`_config.py` line 113): `self._Key() == other._Key()` between two
ImmutableConfig objects. -/
def icfgEq (a b : ImmutableConfig) : Bool :=
  (ImmutableConfig.key a) == (ImmutableConfig.key b)

/-- `__hash__` (`_config.py` lines 107-109): a digest of `_Key`, abstracted
over the digest function (`md5` + `int(, 16)` in the source). -/
def ImmutableConfig.hashWith (digest : String → Nat) (c : ImmutableConfig) : Nat :=
  digest (ImmutableConfig.key c)

/-- C4: two ImmutableConfig objects are equal exactly when their sorted-key
JSON serialisations (`_Key`) are identical; the same dictionary supplied in a
different key order - at the top level or inside a string-dictionary value -
yields an equal configuration; equal configurations agree on every value up to
canonical (sorted-entry) form, so one differing value makes them unequal; and
any two equal configurations have identical hash values under any digest. -/
theorem immutableConfig_eq_spec :
    (∀ a b : ImmutableConfig, icfgEq a b = true ↔
      ImmutableConfig.key a = ImmutableConfig.key b)
    ∧ (∀ d1 d2 : List (String × PValue), d1.Perm d2 →
        (d1.map Prod.fst).Nodup → icfgEq ⟨d1⟩ ⟨d2⟩ = true)
    ∧ (∀ (k : String) (es1 es2 : List (String × String))
        (d : List (String × PValue)), es1.Perm es2 →
        (es1.map Prod.fst).Nodup →
        icfgEq ⟨(k, PValue.dict es1) :: d⟩ ⟨(k, PValue.dict es2) :: d⟩ = true)
    ∧ (∀ (d1 d2 : List (String × PValue)) (k : String),
        (d1.map Prod.fst).Nodup → (d2.map Prod.fst).Nodup →
        icfgEq ⟨d1⟩ ⟨d2⟩ = true →
        (lookupP d1 k).map canonValue = (lookupP d2 k).map canonValue)
    ∧ (∀ (digest : String → Nat) (a b : ImmutableConfig),
        icfgEq a b = true →
        ImmutableConfig.hashWith digest a = ImmutableConfig.hashWith digest b) := by
  refine ⟨?_, ?_, ?_, ?_, ?_⟩
  · intro a b
    constructor
    · exact fun h => eq_of_beq h
    · intro h
      show (ImmutableConfig.key a == ImmutableConfig.key b) = true
      rw [h]
      exact beq_self_eq_true _
  · intro d1 d2 p nd
    show (String.mk (serializeConfig d1) == String.mk (serializeConfig d2)) = true
    rw [show serializeConfig d1 = serializeConfig d2 from by
      show '{' :: topEntriesEncAll (sortTopEntries d1) = _
      rw [sortTopEntries_perm_eq d1 d2 p nd]
      rfl]
    exact beq_self_eq_true _
  · intro k es1 es2 d p nd
    show (String.mk (serializeConfig ((k, PValue.dict es1) :: d)) ==
      String.mk (serializeConfig ((k, PValue.dict es2) :: d))) = true
    have hf : List.Forall₂ entRel
        ((k, PValue.dict es1) :: d) ((k, PValue.dict es2) :: d) := by
      refine List.Forall₂.cons ⟨rfl, ?_⟩ ?_
      · show PValue.dict (sortEntries es1) = PValue.dict (sortEntries es2)
        rw [sortEntries_perm_eq es1 es2 p nd]
      · exact List.forall₂_same.mpr (fun x _ => ⟨rfl, rfl⟩)
    rw [serializeConfig_entRel hf]
    exact beq_self_eq_true _
  · intro d1 d2 k nd1 nd2 he
    have hkey : String.mk (serializeConfig d1) = String.mk (serializeConfig d2) :=
      eq_of_beq he
    have hser : serializeConfig d1 = serializeConfig d2 :=
      congrArg String.data hkey
    have hcanon := serializeConfig_canon d1 d2 hser
    have hsp1 : lookupP (sortTopEntries d1) k = lookupP d1 k :=
      lookupP_perm k (List.perm_insertionSort _ d1)
        (((List.perm_insertionSort
          (fun a b : String × PValue => a.1 ≤ b.1) d1).map
          Prod.fst).nodup_iff.mpr nd1)
    have hsp2 : lookupP (sortTopEntries d2) k = lookupP d2 k :=
      lookupP_perm k (List.perm_insertionSort _ d2)
        (((List.perm_insertionSort
          (fun a b : String × PValue => a.1 ≤ b.1) d2).map
          Prod.fst).nodup_iff.mpr nd2)
    have h1 : lookupP (canonTop d1) k = (lookupP d1 k).map canonValue := by
      show lookupP ((sortTopEntries d1).map (fun kv => (kv.1, canonValue kv.2))) k = _
      rw [lookupP_map_canon, hsp1]
    have h2 : lookupP (canonTop d2) k = (lookupP d2 k).map canonValue := by
      show lookupP ((sortTopEntries d2).map (fun kv => (kv.1, canonValue kv.2))) k = _
      rw [lookupP_map_canon, hsp2]
    rw [← h1, ← h2, hcanon]
  · intro digest a b he
    show digest (ImmutableConfig.key a) = digest (ImmutableConfig.key b)
    rw [eq_of_beq he]

theorem immutableConfig_eq_spec_witness :
    icfgEq ⟨[("a", PValue.null), ("b", PValue.str "y")]⟩
        ⟨[("b", PValue.str "y"), ("a", PValue.null)]⟩ = true
    ∧ icfgEq ⟨[("e", PValue.dict [("x", "1"), ("y", "2")])]⟩
        ⟨[("e", PValue.dict [("y", "2"), ("x", "1")])]⟩ = true
    ∧ (lookupP [("a", PValue.null), ("b", PValue.str "y")] "a").map canonValue =
        (lookupP [("b", PValue.str "y"), ("a", PValue.null)] "a").map canonValue
    ∧ ImmutableConfig.hashWith String.length
        ⟨[("a", PValue.null), ("b", PValue.str "y")]⟩ =
      ImmutableConfig.hashWith String.length
        ⟨[("b", PValue.str "y"), ("a", PValue.null)]⟩ := by
  have h := immutableConfig_eq_spec
  have hperm : ([("a", PValue.null), ("b", PValue.str "y")] :
      List (String × PValue)).Perm [("b", PValue.str "y"), ("a", PValue.null)] :=
    List.Perm.swap _ _ _
  have hnd : (([("a", PValue.null), ("b", PValue.str "y")] :
      List (String × PValue)).map Prod.fst).Nodup := by decide
  have he1 : icfgEq ⟨[("a", PValue.null), ("b", PValue.str "y")]⟩
      ⟨[("b", PValue.str "y"), ("a", PValue.null)]⟩ = true :=
    h.2.1 _ _ hperm hnd
  refine ⟨he1, ?_, ?_, ?_⟩
  · exact h.2.2.1 "e" _ _ [] (List.Perm.swap _ _ _) (by decide)
  · exact h.2.2.2.1 _ _ "a" hnd (by decide) he1
  · exact h.2.2.2.2 String.length _ _ he1

/-! ### `_sdk_tar.py`: UnpackTar (C3) -/

/-- Filesystem state for the unpack step: which paths are regular files and
which are directories. -/
structure FS where
  files : List String
  dirs : List String
deriving DecidableEq

/-- `os.path.exists`. -/
def pathExists (fs : FS) (p : String) : Bool :=
  fs.files.contains p || fs.dirs.contains p

/-- One entry of a tar archive: its name and whether it is a regular file. -/
structure Member where
  name : String
  isFile : Bool
deriving DecidableEq

/-- `ExtractWithoutOverwrite` (`_sdk_tar.py` lines 88-94): extract each member
into `directory`, skipping regular files that already exist there. -/
def ExtractWithoutOverwrite (fs : FS) (members : List Member)
    (directory : String) : FS :=
  members.foldl (fun acc m =>
    if m.isFile && acc.files.contains (pathJoin directory m.name) then acc
    else if m.isFile then
      { acc with files := pathJoin directory m.name :: acc.files }
    else
      { acc with dirs := pathJoin directory m.name :: acc.dirs }) fs

/-- Lines 119-124 of `_sdk_tar.py`: create the repo staging directory if
needed and extract the downloaded tar into it. -/
def unpackExtracted (fs : FS) (members : List Member) (root : String) : FS :=
  let repo := pathJoin root REPO_FOLDER
  let fs1 := if pathExists fs repo then fs else { fs with dirs := repo :: fs.dirs }
  ExtractWithoutOverwrite fs1 members repo

/-- One iteration of the move-up-one-level loop (`_sdk_tar.py` lines 162-164):
`shutil.move` the child into the root unless its name already exists there. -/
def moveChild (root repo : String) (fs : FS) (name : String) : FS :=
  if pathExists fs (pathJoin root name) then fs
  else if fs.files.contains (pathJoin repo name) then
    { files := pathJoin root name :: fs.files.erase (pathJoin repo name),
      dirs := fs.dirs }
  else
    { files := fs.files,
      dirs := pathJoin root name :: fs.dirs.erase (pathJoin repo name) }

/-- The whole move-up-one-level loop over a directory listing. -/
def moveLoop (fs : FS) (repo root : String) (names : List String) : FS :=
  names.foldl (moveChild root repo) fs

/-- The direct child name of `dir` named by path `p`, if any: a model of
membership in `os.listdir(dir)`. -/
def isChildOf (dir p : String) : Option String :=
  if strStartsWith (dir ++ "/") p then
    let rest := p.data.drop (dir.data.length + 1)
    if rest.isEmpty || rest.contains '/' then none else some (String.mk rest)
  else none

/-- `os.listdir(dir)` over the filesystem state. -/
def childNames (fs : FS) (dir : String) : List String :=
  (fs.files ++ fs.dirs).filterMap (isChildOf dir)

/-- The snapshot URL computed in the installer-only branch
(`_sdk_tar.py` lines 149-158). -/
def unpackSnapshotInstaller (fs2 : FS) (tar_location : String) : Option String :=
  if urlScheme tar_location = "" then
    if fs2.files.contains (pathJoin (dirnameP tar_location) COMPONENTS_FILE) then
      some (urljoinFileBase (pathJoin (dirnameP tar_location) COMPONENTS_FILE))
    else none
  else none

/-- `UnpackTar` (`_sdk_tar.py` lines 97-168). The tar contents and the nested
installer tar contents are given as member lists; `tarOpenOk` and
`installerOpenOk` stand for the absence of `tarfile.TarError` on the two
`tarfile.open` + extract steps. Returns the snapshot URL (or `none`) and the
resulting filesystem. -/
def UnpackTar (fs : FS) (tarOpenOk : Bool) (members installerMembers : List Member)
    (installerOpenOk : Bool)
    (download_path tar_location root_directory : String) :
    Except DriverError (Option String × FS) :=
  if tarOpenOk = false then Except.error (DriverError.tarError "extracting")
  else
    let repo_directory := pathJoin root_directory REPO_FOLDER
    let fs2 := unpackExtracted fs members root_directory
    let components_json := pathJoin repo_directory COMPONENTS_FILE
    if fs2.files.contains components_json then
      if installerOpenOk = false then Except.error (DriverError.tarError "extracting")
      else
        Except.ok (some ("file://" ++ components_json),
          ExtractWithoutOverwrite fs2 installerMembers root_directory)
    else
      Except.ok (unpackSnapshotInstaller fs2 tar_location,
        moveLoop fs2 repo_directory root_directory
          (childNames fs2 repo_directory))

theorem urljoinFileBase_startsWith (p : String) :
    strStartsWith "file://" (urljoinFileBase p) = true := by
  unfold urljoinFileBase
  by_cases h : strStartsWith "/" p
  · rw [if_pos h]
    obtain ⟨pl⟩ := p
    exact decide_eq_true
      (show "file://".data <+: ("file://" ++ String.mk pl).data from
        List.prefix_append _ _)
  · rw [if_neg h]
    obtain ⟨pl⟩ := p
    refine decide_eq_true ?_
    show "file://".data <+: "file:///".data ++ pl
    rw [show ("file:///".data : List Char) = "file://".data ++ ['/'] from rfl,
      List.append_assoc]
    exact List.prefix_append _ _

theorem contains_iff_memS (l : List String) (a : String) :
    l.contains a = true ↔ a ∈ l := List.elem_iff

theorem pathExists_iff (fs : FS) (p : String) :
    pathExists fs p = true ↔ p ∈ fs.files ∨ p ∈ fs.dirs := by
  unfold pathExists
  rw [Bool.or_eq_true, contains_iff_memS, contains_iff_memS]

theorem moveChild_mem (root repo : String) (fs : FS) (m p : String)
    (hdst : pathJoin root m ≠ p) (hsrc : pathJoin repo m ≠ p) :
    (p ∈ (moveChild root repo fs m).files ↔ p ∈ fs.files)
    ∧ (p ∈ (moveChild root repo fs m).dirs ↔ p ∈ fs.dirs) := by
  unfold moveChild
  by_cases h1 : pathExists fs (pathJoin root m)
  · rw [if_pos h1]
    exact ⟨Iff.rfl, Iff.rfl⟩
  · rw [if_neg h1]
    by_cases h2 : fs.files.contains (pathJoin repo m)
    · rw [if_pos h2]
      refine ⟨?_, Iff.rfl⟩
      show p ∈ pathJoin root m :: fs.files.erase (pathJoin repo m) ↔ p ∈ fs.files
      rw [List.mem_cons]
      constructor
      · intro h
        rcases h with h | h
        · exact absurd h.symm hdst
        · exact List.mem_of_mem_erase h
      · intro h
        exact Or.inr ((List.mem_erase_of_ne (Ne.symm hsrc)).mpr h)
    · rw [if_neg h2]
      refine ⟨Iff.rfl, ?_⟩
      show p ∈ pathJoin root m :: fs.dirs.erase (pathJoin repo m) ↔ p ∈ fs.dirs
      rw [List.mem_cons]
      constructor
      · intro h
        rcases h with h | h
        · exact absurd h.symm hdst
        · exact List.mem_of_mem_erase h
      · intro h
        exact Or.inr ((List.mem_erase_of_ne (Ne.symm hsrc)).mpr h)

theorem moveChild_pathExists (root repo : String) (fs : FS) (m p : String)
    (hdst : pathJoin root m ≠ p) (hsrc : pathJoin repo m ≠ p) :
    pathExists (moveChild root repo fs m) p = pathExists fs p := by
  have h := moveChild_mem root repo fs m p hdst hsrc
  refine Bool.eq_iff_iff.mpr ?_
  rw [pathExists_iff, pathExists_iff]
  exact or_congr h.1 h.2

theorem moveChild_files_nodup (root repo : String) (fs : FS) (m : String)
    (hnd : fs.files.Nodup) : (moveChild root repo fs m).files.Nodup := by
  unfold moveChild
  by_cases h1 : pathExists fs (pathJoin root m)
  · rw [if_pos h1]
    exact hnd
  · rw [if_neg h1]
    by_cases h2 : fs.files.contains (pathJoin repo m)
    · rw [if_pos h2]
      show (pathJoin root m :: fs.files.erase (pathJoin repo m)).Nodup
      refine List.nodup_cons.mpr ⟨?_, hnd.erase _⟩
      intro hmem
      exact h1 ((pathExists_iff fs _).mpr (Or.inl (List.mem_of_mem_erase hmem)))
    · rw [if_neg h2]
      exact hnd

theorem moveLoop_frame (root repo : String) (names : List String) (p : String) :
    ∀ fs : FS, (∀ n ∈ names, pathJoin root n ≠ p) →
      (∀ n ∈ names, pathJoin repo n ≠ p) →
      ((p ∈ (moveLoop fs repo root names).files ↔ p ∈ fs.files)
       ∧ (p ∈ (moveLoop fs repo root names).dirs ↔ p ∈ fs.dirs)) := by
  induction names with
  | nil =>
    intro fs _ _
    exact ⟨Iff.rfl, Iff.rfl⟩
  | cons m rest ih =>
    intro fs hd hs
    have hstep := moveChild_mem root repo fs m p
      (hd m (List.mem_cons_self _ _)) (hs m (List.mem_cons_self _ _))
    have hih := ih (moveChild root repo fs m)
      (fun n hn => hd n (List.mem_cons_of_mem _ hn))
      (fun n hn => hs n (List.mem_cons_of_mem _ hn))
    have hred : moveLoop fs repo root (m :: rest) =
        moveLoop (moveChild root repo fs m) repo root rest := rfl
    rw [hred]
    exact ⟨hih.1.trans hstep.1, hih.2.trans hstep.2⟩

theorem moveLoop_spec (root repo : String) (names : List String) :
    ∀ fs : FS, names.Nodup → fs.files.Nodup →
      (∀ n1 ∈ names, ∀ n2 ∈ names, pathJoin root n1 = pathJoin root n2 → n1 = n2) →
      (∀ n1 ∈ names, ∀ n2 ∈ names, pathJoin repo n1 = pathJoin repo n2 → n1 = n2) →
      (∀ n1 ∈ names, ∀ n2 ∈ names, pathJoin root n1 ≠ pathJoin repo n2) →
      ∀ n ∈ names, pathJoin repo n ∈ fs.files →
        (pathExists fs (pathJoin root n) = true →
          pathJoin repo n ∈ (moveLoop fs repo root names).files)
        ∧ (pathExists fs (pathJoin root n) = false →
          pathJoin root n ∈ (moveLoop fs repo root names).files
          ∧ pathJoin repo n ∉ (moveLoop fs repo root names).files) := by
  induction names with
  | nil =>
    intro fs _ _ _ _ _ n hn
    exact absurd hn (List.not_mem_nil _)
  | cons m rest ih =>
    intro fs hnd hfnd hinjr hinjp hcross n hn hmem
    have hmm : m ∈ m :: rest := List.mem_cons_self _ _
    have hred : moveLoop fs repo root (m :: rest) =
        moveLoop (moveChild root repo fs m) repo root rest := rfl
    rcases List.mem_cons.mp hn with heq | htail
    · subst heq
      constructor
      · intro hpe
        have hskip : moveChild root repo fs n = fs := by
          unfold moveChild
          rw [if_pos hpe]
        rw [hred, hskip]
        refine (moveLoop_frame root repo rest (pathJoin repo n) fs ?_ ?_).1.mpr hmem
        · intro n2 hn2
          exact hcross n2 (List.mem_cons_of_mem _ hn2) n hn
        · intro n2 hn2 he
          have h := hinjp n2 (List.mem_cons_of_mem _ hn2) n hn he
          exact (List.nodup_cons.mp hnd).1 (h ▸ hn2)
      · intro hpe
        have hcont : fs.files.contains (pathJoin repo n) = true :=
          (contains_iff_memS _ _).mpr hmem
        have hmv : moveChild root repo fs n =
            { files := pathJoin root n :: fs.files.erase (pathJoin repo n),
              dirs := fs.dirs } := by
          unfold moveChild
          rw [if_neg (fun h => Bool.false_ne_true (hpe ▸ h)), if_pos hcont]
        have hfr1 : ∀ n2 ∈ rest, pathJoin root n2 ≠ pathJoin root n := by
          intro n2 hn2 he
          have h := hinjr n2 (List.mem_cons_of_mem _ hn2) n hn he
          exact (List.nodup_cons.mp hnd).1 (h ▸ hn2)
        have hfr2 : ∀ n2 ∈ rest, pathJoin repo n2 ≠ pathJoin root n := by
          intro n2 hn2 he
          exact hcross n hn n2 (List.mem_cons_of_mem _ hn2) he.symm
        have hfr3 : ∀ n2 ∈ rest, pathJoin root n2 ≠ pathJoin repo n := by
          intro n2 hn2
          exact hcross n2 (List.mem_cons_of_mem _ hn2) n hn
        have hfr4 : ∀ n2 ∈ rest, pathJoin repo n2 ≠ pathJoin repo n := by
          intro n2 hn2 he
          have h := hinjp n2 (List.mem_cons_of_mem _ hn2) n hn he
          exact (List.nodup_cons.mp hnd).1 (h ▸ hn2)
        constructor
        · rw [hred, hmv]
          refine (moveLoop_frame root repo rest (pathJoin root n) _ hfr1 hfr2).1.mpr ?_
          exact List.mem_cons_self _ _
        · rw [hred, hmv]
          intro hbad
          have h := (moveLoop_frame root repo rest (pathJoin repo n) _ hfr3 hfr4).1.mp hbad
          rcases List.mem_cons.mp h with h | h
          · exact hcross n hn n hn h.symm
          · exact ((List.Nodup.mem_erase_iff hfnd).mp h).1 rfl
    · have hne_nm : n ≠ m := by
        intro he
        exact (List.nodup_cons.mp hnd).1 (he ▸ htail)
      have hdstne : pathJoin root m ≠ pathJoin repo n := hcross m hmm n hn
      have hsrcne : pathJoin repo m ≠ pathJoin repo n := by
        intro he
        exact hne_nm (hinjp n hn m hmm he.symm)
      have hdstne2 : pathJoin root m ≠ pathJoin root n := by
        intro he
        exact hne_nm (hinjr n hn m hmm he.symm)
      have hsrcne2 : pathJoin repo m ≠ pathJoin root n := by
        intro he
        exact hcross n hn m hmm he.symm
      have hmem2 : pathJoin repo n ∈ (moveChild root repo fs m).files :=
        (moveChild_mem root repo fs m _ hdstne hsrcne).1.mpr hmem
      have hpe2 : pathExists (moveChild root repo fs m) (pathJoin root n) =
          pathExists fs (pathJoin root n) :=
        moveChild_pathExists root repo fs m _ hdstne2 hsrcne2
      have hrest := ih (moveChild root repo fs m) (List.nodup_cons.mp hnd).2
        (moveChild_files_nodup root repo fs m hfnd)
        (fun n1 h1 n2 h2 => hinjr n1 (List.mem_cons_of_mem _ h1)
          n2 (List.mem_cons_of_mem _ h2))
        (fun n1 h1 n2 h2 => hinjp n1 (List.mem_cons_of_mem _ h1)
          n2 (List.mem_cons_of_mem _ h2))
        (fun n1 h1 n2 h2 => hcross n1 (List.mem_cons_of_mem _ h1)
          n2 (List.mem_cons_of_mem _ h2))
        n htail hmem2
      constructor
      · intro hpe
        rw [hred]
        exact hrest.1 (by rw [hpe2]; exact hpe)
      · intro hpe
        rw [hred]
        exact hrest.2 (by rw [hpe2]; exact hpe)

/-- C3: for an archive whose extracted contents do not include the components
metadata file (installer-only shape): if the original tar location has no URL
scheme and a components metadata file exists as a sibling of that location,
UnpackTar returns a `file://` URL to that sibling; if the location has a
scheme, or no such sibling exists, it returns `none`; in either case the
result filesystem is the move-up-one-level loop over the children of the repo
staging directory, and that loop moves every file child of the staging
directory into the root directory - skipping exactly those whose name already
exists at the destination, which stay in place. -/
theorem unpackTar_installer_only_spec
    (fs : FS) (members installerMembers : List Member) (installerOpenOk : Bool)
    (download_path tar_location root_directory : String)
    (hnc : (unpackExtracted fs members root_directory).files.contains
      (pathJoin (pathJoin root_directory REPO_FOLDER) COMPONENTS_FILE) = false) :
    ((urlScheme tar_location = "" →
      (unpackExtracted fs members root_directory).files.contains (pathJoin (dirnameP tar_location) COMPONENTS_FILE) = true →
      UnpackTar fs true members installerMembers installerOpenOk
          download_path tar_location root_directory =
        Except.ok (some (urljoinFileBase (pathJoin (dirnameP tar_location) COMPONENTS_FILE)),
          moveLoop (unpackExtracted fs members root_directory) (pathJoin root_directory REPO_FOLDER) root_directory (childNames (unpackExtracted fs members root_directory) (pathJoin root_directory REPO_FOLDER)))
      ∧ strStartsWith "file://" (urljoinFileBase (pathJoin (dirnameP tar_location) COMPONENTS_FILE)) = true))
    ∧ ((¬urlScheme tar_location = "" ∨
        (unpackExtracted fs members root_directory).files.contains (pathJoin (dirnameP tar_location) COMPONENTS_FILE) = false) →
      UnpackTar fs true members installerMembers installerOpenOk
          download_path tar_location root_directory =
        Except.ok (none, moveLoop (unpackExtracted fs members root_directory) (pathJoin root_directory REPO_FOLDER) root_directory (childNames (unpackExtracted fs members root_directory) (pathJoin root_directory REPO_FOLDER))))
    ∧ ((childNames (unpackExtracted fs members root_directory) (pathJoin root_directory REPO_FOLDER)).Nodup → (unpackExtracted fs members root_directory).files.Nodup →
      (∀ n1 ∈ (childNames (unpackExtracted fs members root_directory) (pathJoin root_directory REPO_FOLDER)), ∀ n2 ∈ (childNames (unpackExtracted fs members root_directory) (pathJoin root_directory REPO_FOLDER)),
        pathJoin root_directory n1 = pathJoin root_directory n2 → n1 = n2) →
      (∀ n1 ∈ (childNames (unpackExtracted fs members root_directory) (pathJoin root_directory REPO_FOLDER)), ∀ n2 ∈ (childNames (unpackExtracted fs members root_directory) (pathJoin root_directory REPO_FOLDER)),
        pathJoin (pathJoin root_directory REPO_FOLDER) n1 = pathJoin (pathJoin root_directory REPO_FOLDER) n2 → n1 = n2) →
      (∀ n1 ∈ (childNames (unpackExtracted fs members root_directory) (pathJoin root_directory REPO_FOLDER)), ∀ n2 ∈ (childNames (unpackExtracted fs members root_directory) (pathJoin root_directory REPO_FOLDER)),
        pathJoin root_directory n1 ≠ pathJoin (pathJoin root_directory REPO_FOLDER) n2) →
      ∀ n ∈ (childNames (unpackExtracted fs members root_directory) (pathJoin root_directory REPO_FOLDER)), pathJoin (pathJoin root_directory REPO_FOLDER) n ∈ (unpackExtracted fs members root_directory).files →
        (pathExists (unpackExtracted fs members root_directory) (pathJoin root_directory n) = true →
          pathJoin (pathJoin root_directory REPO_FOLDER) n ∈ (moveLoop (unpackExtracted fs members root_directory) (pathJoin root_directory REPO_FOLDER) root_directory (childNames (unpackExtracted fs members root_directory) (pathJoin root_directory REPO_FOLDER))).files)
        ∧ (pathExists (unpackExtracted fs members root_directory) (pathJoin root_directory n) = false →
          pathJoin root_directory n ∈ (moveLoop (unpackExtracted fs members root_directory) (pathJoin root_directory REPO_FOLDER) root_directory (childNames (unpackExtracted fs members root_directory) (pathJoin root_directory REPO_FOLDER))).files
          ∧ pathJoin (pathJoin root_directory REPO_FOLDER) n ∉ (moveLoop (unpackExtracted fs members root_directory) (pathJoin root_directory REPO_FOLDER) root_directory (childNames (unpackExtracted fs members root_directory) (pathJoin root_directory REPO_FOLDER))).files)) := by
  refine ⟨?_, ?_, ?_⟩
  · intro hscheme hsib
    constructor
    · unfold UnpackTar
      rw [if_neg (by decide : ¬(true = false))]
      dsimp only []
      rw [hnc]
      rw [if_neg (by decide : ¬(false = true))]
      unfold unpackSnapshotInstaller
      rw [if_pos hscheme, if_pos hsib]
    · exact urljoinFileBase_startsWith _
  · intro hcase
    unfold UnpackTar
    rw [if_neg (by decide : ¬(true = false))]
    dsimp only []
    rw [hnc]
    rw [if_neg (by decide : ¬(false = true))]
    unfold unpackSnapshotInstaller
    rcases hcase with hs | hsib
    · rw [if_neg hs]
    · by_cases hscheme : urlScheme tar_location = ""
      · rw [if_pos hscheme, hsib, if_neg (by decide : ¬(false = true))]
      · rw [if_neg hscheme]
  · exact moveLoop_spec root_directory (pathJoin root_directory REPO_FOLDER)
      (childNames (unpackExtracted fs members root_directory) (pathJoin root_directory REPO_FOLDER)) (unpackExtracted fs members root_directory)

/-- Concrete filesystem after the installer-only unpack-and-move of the
witness scenario. -/
def fsMovedW : FS :=
  ⟨["/root/install.sh", "/root/repo/keep", "/tars/installer.tar.gz",
    "/tars/components-2.json", "/root/keep"],
   ["/root/repo", "/root", "/tars"]⟩

theorem unpackTar_installer_only_spec_witness :
    UnpackTar ⟨["/tars/installer.tar.gz", "/tars/components-2.json", "/root/keep"],
        ["/root", "/tars"]⟩ true
      [⟨"install.sh", true⟩, ⟨"keep", true⟩] [] true
      "/tars/installer.tar.gz" "/tars/installer.tar.gz" "/root" =
      Except.ok (some "file:///tars/components-2.json", fsMovedW)
    ∧ "/root/install.sh" ∈ fsMovedW.files
    ∧ "/root/repo/install.sh" ∉ fsMovedW.files
    ∧ "/root/repo/keep" ∈ fsMovedW.files := by
  have h := unpackTar_installer_only_spec
    ⟨["/tars/installer.tar.gz", "/tars/components-2.json", "/root/keep"],
      ["/root", "/tars"]⟩
    [⟨"install.sh", true⟩, ⟨"keep", true⟩] [] true
    "/tars/installer.tar.gz" "/tars/installer.tar.gz" "/root" (by decide)
  have hm := h.2.2 (by decide) (by decide) (by decide) (by decide) (by decide)
    "install.sh" (by decide) (by decide)
  have hk := h.2.2 (by decide) (by decide) (by decide) (by decide) (by decide)
    "keep" (by decide) (by decide)
  refine ⟨?_, ?_, ?_, ?_⟩
  · exact (h.1 (by decide) (by decide)).1
  · exact (hm.2 (by decide)).1
  · exact (hm.2 (by decide)).2
  · exact hk.1 (by decide)

end CloudSdkTestDriver
